import Mathlib

/-!
Shallow embedding of the trading-ledger core of `eve-market-analyzer`
(`src/database/models.py` and `src/utils/price_calculator.py`):

* the order ledger (`character_history_<id>` tables), inventory lots
  (`character_inventory_<id>`) and profit records (`character_profit_<id>`);
* ingestion (`save_character_order_history`, INSERT IGNORE keyed by
  `order_id`);
* the FIFO matching engine (`process_character_orders`), including its
  single-transaction commit/rollback boundary;
* the reporting queries (`get_profit_by_months`, `get_profit_by_days`).

Modelling conventions:
* Python floats / MySQL DECIMAL values are modelled as exact rationals (`ℚ`).
  A MySQL `DECIMAL(20,2)` column rounds the inserted value to two decimal
  places (round half away from zero); this coercion at the point of INSERT is
  modelled by `round2`.  Python-side intermediate arithmetic is unrounded.
* `DATETIME` values are modelled as a (year, month, day, time-of-day) tuple
  ordered lexicographically; `DATE(x)` drops the time component and
  `DATE_FORMAT(x, %Y-%m)` keeps (year, month).
* Only the columns that the modelled code paths read or write are carried;
  display-only columns (`duration`, `escrow`, `is_corporation`,
  `location_id`, `min_volume`, `range_type`, `region_id`, `state`) are
  omitted from the row structures.
* MySQL result-set effects are modelled literally: `ORDER BY` is a stable
  insertion sort, `AUTO_INCREMENT` ids come from a counter in the database state,
  `UPDATE`/`DELETE ... WHERE id = x` touch every row whose id matches.
-/

/-- A MySQL `DATETIME`: year, month, day and an abstract time-of-day. -/
structure DateTime where
  y : Nat
  m : Nat
  d : Nat
  t : Nat
deriving DecidableEq, Repr

/-- Lexicographic `≤` on `DATETIME` values (MySQL comparison semantics). -/
def DateTime.le (a b : DateTime) : Bool :=
  (a.y < b.y) ||
  (a.y == b.y && ((a.m < b.m) ||
    (a.m == b.m && ((a.d < b.d) ||
      (a.d == b.d && a.t ≤ b.t)))))

/-- `DATE_FORMAT(x, '%Y-%m')`: the (year, month) bucket of a datetime. -/
def DateTime.monthKey (a : DateTime) : Nat × Nat := (a.y, a.m)

/-- `DATE(x)`: the (year, month, day) bucket of a datetime. -/
def DateTime.dayKey (a : DateTime) : Nat × Nat × Nat := (a.y, a.m, a.d)

/-- Lexicographic `≤` on `DATE` values, used by `BETWEEN` on days. -/
def dayLe (a b : Nat × Nat × Nat) : Bool :=
  (a.1 < b.1) ||
  (a.1 == b.1 && ((a.2.1 < b.2.1) ||
    (a.2.1 == b.2.1 && a.2.2 ≤ b.2.2)))

/-- MySQL rounding of an exact value to an integer: round half away from
zero (the behaviour of decimal coercion). -/
def mysqlRound (x : ℚ) : ℤ :=
  if 0 ≤ x then ⌊x + 1/2⌋ else -⌊-x + 1/2⌋

/-- Coercion of an inserted value into a `DECIMAL(20,2)` column: the value
rounded to two decimal places. -/
def round2 (x : ℚ) : ℚ := (mysqlRound (100 * x) : ℚ) / 100

/-- A rational that is representable in a `DECIMAL(_,2)` column. -/
def Is2dp (x : ℚ) : Prop := ∃ n : ℤ, x = (n : ℚ) / 100

/-- A row of the `character_history_<id>` order-ledger table
(`create_character_history_table`).  `volume_effective` is fixed at
ingestion time as `volume_total - volume_remain`; `exhausted` defaults to
`FALSE`.  Display-only columns are omitted (see the header comment). -/
structure HistOrder where
  order_id : Nat
  is_buy_order : Bool
  issued : DateTime
  price : ℚ
  type_id : Nat
  volume_effective : Int
  exhausted : Bool
deriving DecidableEq, Repr

/-- The fields of a raw feed order (ESI dictionary) that land in modelled
columns of the ledger in `save_character_order_history`. -/
structure RawOrder where
  order_id : Nat
  is_buy_order : Bool
  issued : DateTime
  price : ℚ
  type_id : Nat
  volume_remain : Int
  volume_total : Int
deriving DecidableEq, Repr

/-- A row of the `character_inventory_<id>` table
(`create_character_inventory_table`).  `id` is the `AUTO_INCREMENT`
primary key. -/
structure Lot where
  id : Nat
  type_id : Nat
  quantity : Int
  purchase_price : ℚ
  purchase_order_id : Nat
  purchase_date : DateTime
  broker_fee_buy : ℚ
deriving DecidableEq, Repr

/-- A row of the `character_profit_<id>` table
(`create_character_profit_table`).  `purchase_order_id` is nullable: `none`
marks the sold-without-purchase fallback record. -/
structure ProfitRec where
  type_id : Nat
  sell_order_id : Nat
  sell_date : DateTime
  quantity : Int
  purchase_price : ℚ
  sell_price : ℚ
  broker_fee_buy : ℚ
  broker_fee_sell : ℚ
  sales_tax : ℚ
  gross_profit : ℚ
  net_profit : ℚ
  purchase_order_id : Option Nat
deriving DecidableEq, Repr

/-- The three per-trader relations plus the inventory table's
`AUTO_INCREMENT` counter. -/
structure DBState where
  history : List HistOrder
  inventory : List Lot
  profits : List ProfitRec
  nextLotId : Nat
deriving DecidableEq, Repr

/-- The statistics dictionary returned by `process_character_orders`. -/
structure Stats where
  buy_orders_processed : Nat
  sell_orders_processed : Nat
  items_added_to_inventory : Int
  items_sold : Int
  items_sold_without_purchase : Int
deriving DecidableEq, Repr

def Stats.init : Stats := ⟨0, 0, 0, 0, 0⟩

/-- `save_character_order_history` (models.py:396-458): per order, `INSERT
IGNORE` into the history table keyed by the `order_id` primary key, with
`volume_effective := volume_total - volume_remain` and `exhausted`
defaulting to false; returns `(inserted_count, skipped_count)`.  The
monetary `price` column is `DECIMAL(20,2)`, hence the `round2`. -/
def save_character_order_history (table : List HistOrder) (orders : List RawOrder) :
    List HistOrder × (Nat × Nat) :=
  orders.foldl
    (fun acc o =>
      if (acc.1.map HistOrder.order_id).contains o.order_id then
        (acc.1, (acc.2.1, acc.2.2 + 1))
      else
        (acc.1 ++ [{ order_id := o.order_id
                     is_buy_order := o.is_buy_order
                     issued := o.issued
                     price := round2 o.price
                     type_id := o.type_id
                     volume_effective := o.volume_total - o.volume_remain
                     exhausted := false }],
         (acc.2.1 + 1, acc.2.2)))
    (table, (0, 0))

/-- One SQL write statement issued inside the matching-engine transaction.
Monetary fields of a write already carry the `DECIMAL(20,2)`-rounded value
that the column stores. -/
inductive Write where
  | insertLot (type_id : Nat) (quantity : Int) (purchase_price : ℚ)
      (purchase_order_id : Nat) (purchase_date : DateTime) (broker_fee_buy : ℚ)
  | insertProfit (r : ProfitRec)
  | updateLotQty (id : Nat) (quantity : Int)
  | deleteLot (id : Nat)
  | setExhausted (order_id : Nat)
deriving DecidableEq, Repr

/-- Effect of one write on the in-transaction database state.  `INSERT`
appends (the lot insert drawing its `AUTO_INCREMENT` id from the counter);
`UPDATE`/`DELETE ... WHERE id/order_id = x` touch every row whose key
matches. -/
def applyW (s : DBState) : Write → DBState
  | .insertLot t q pp poid pd fee =>
      { s with
        inventory := s.inventory ++
          [{ id := s.nextLotId, type_id := t, quantity := q,
             purchase_price := pp, purchase_order_id := poid,
             purchase_date := pd, broker_fee_buy := fee }],
        nextLotId := s.nextLotId + 1 }
  | .insertProfit r => { s with profits := s.profits ++ [r] }
  | .updateLotQty i q =>
      { s with inventory :=
          s.inventory.map (fun l => if l.id = i then { l with quantity := q } else l) }
  | .deleteLot i =>
      { s with inventory := s.inventory.filter (fun l => l.id ≠ i) }
  | .setExhausted oid =>
      { s with history :=
          s.history.map (fun o => if o.order_id = oid then { o with exhausted := true } else o) }

def applyWrites (s : DBState) (ws : List Write) : DBState :=
  ws.foldl applyW s

/-- The running transaction: the in-transaction state, the log of writes
issued so far, and the statistics accumulated so far. -/
structure RunAcc where
  st : DBState
  log : List Write
  stats : Stats
deriving Repr

/-- Issue one write: apply it to the in-transaction state and append it to
the transaction log. -/
def RunAcc.emit (acc : RunAcc) (w : Write) : RunAcc :=
  { acc with st := applyW acc.st w, log := acc.log ++ [w] }

/-- `ORDER BY issued ASC` on ledger rows. -/
def issuedLe (a b : HistOrder) : Prop := DateTime.le a.issued b.issued = true

instance : DecidableRel issuedLe := fun _ _ =>
  inferInstanceAs (Decidable (_ = true))

instance : IsTrans HistOrder issuedLe :=
  ⟨by
    intro a b c
    simp only [issuedLe, DateTime.le, Bool.or_eq_true, Bool.and_eq_true,
      beq_iff_eq, decide_eq_true_eq]
    omega⟩

instance : IsTotal HistOrder issuedLe :=
  ⟨by
    intro a b
    simp only [issuedLe, DateTime.le, Bool.or_eq_true, Bool.and_eq_true,
      beq_iff_eq, decide_eq_true_eq]
    omega⟩

/-- `SELECT * FROM history WHERE exhausted = 0 ORDER BY issued ASC`
(models.py:504-511), fetched once before the processing loop. -/
def selectUnexhausted (s : DBState) : List HistOrder :=
  (s.history.filter (fun o => !o.exhausted)).insertionSort issuedLe

/-- Lot ordering used by the inner FIFO query:
`ORDER BY purchase_date ASC, id ASC` (lexicographic). -/
def lotLe (a b : Lot) : Prop :=
  (DateTime.le a.purchase_date b.purchase_date &&
    (!DateTime.le b.purchase_date a.purchase_date || a.id ≤ b.id)) = true

instance : DecidableRel lotLe := fun _ _ =>
  inferInstanceAs (Decidable (_ = true))

instance : IsTrans Lot lotLe :=
  ⟨by
    intro a b c
    have hiff : ∀ u v : DateTime, (DateTime.le u v = true) ↔
        (u.y < v.y ∨ (u.y = v.y ∧ (u.m < v.m ∨ (u.m = v.m ∧
          (u.d < v.d ∨ (u.d = v.d ∧ u.t ≤ v.t)))))) := by
      intro u v
      simp [DateTime.le]
    simp only [lotLe, Bool.and_eq_true, Bool.or_eq_true, Bool.not_eq_true',
      ← Bool.not_eq_true, hiff, decide_eq_true_eq]
    omega⟩

instance : IsTotal Lot lotLe :=
  ⟨by
    intro a b
    have hiff : ∀ u v : DateTime, (DateTime.le u v = true) ↔
        (u.y < v.y ∨ (u.y = v.y ∧ (u.m < v.m ∨ (u.m = v.m ∧
          (u.d < v.d ∨ (u.d = v.d ∧ u.t ≤ v.t)))))) := by
      intro u v
      simp [DateTime.le]
    simp only [lotLe, Bool.and_eq_true, Bool.or_eq_true, Bool.not_eq_true',
      ← Bool.not_eq_true, hiff, decide_eq_true_eq]
    omega⟩

/-- `SELECT * FROM inventory WHERE type_id = %s ORDER BY purchase_date ASC,
id ASC` (models.py:540-547), fetched once per sell order. -/
def lotsForType (s : DBState) (t : Nat) : List Lot :=
  (s.inventory.filter (fun l => l.type_id = t)).insertionSort lotLe

/-- The profit row inserted when `qty` units of a sell order `o` are matched
against inventory lot `l` (models.py:556-590).  All Python-side arithmetic
is exact; each `DECIMAL(20,2)` column rounds its inserted value.  Note that
`net_profit` is computed from the unrounded intermediate fees and only the
final value is rounded by its column. -/
def mkMatchRecord (sellRate taxRate : ℚ) (o : HistOrder) (l : Lot) (qty : Int) :
    ProfitRec :=
  let costBase : ℚ := l.purchase_price * qty
  let costBrokerBuy : ℚ := l.broker_fee_buy * ((qty : ℚ) / (l.quantity : ℚ))
  let costTotal : ℚ := costBase + costBrokerBuy
  let revenueBase : ℚ := o.price * qty
  let costBrokerSell : ℚ := revenueBase * (sellRate / 100)
  let costSalesTax : ℚ := revenueBase * (taxRate / 100)
  let revenueNet : ℚ := revenueBase - costBrokerSell - costSalesTax
  { type_id := o.type_id
    sell_order_id := o.order_id
    sell_date := o.issued
    quantity := qty
    purchase_price := round2 l.purchase_price
    sell_price := round2 o.price
    broker_fee_buy := round2 costBrokerBuy
    broker_fee_sell := round2 costBrokerSell
    sales_tax := round2 costSalesTax
    gross_profit := round2 (revenueBase - costBase)
    net_profit := round2 (revenueNet - costTotal)
    purchase_order_id := some l.purchase_order_id }

/-- The terminal profit row inserted when `rem` units of a sell order remain
after all lots ran out (models.py:609-636): zero purchase price, zero buy
fee, zero gross and net profit, `NULL` purchase order. -/
def mkFallbackRecord (sellRate taxRate : ℚ) (o : HistOrder) (rem : Int) :
    ProfitRec :=
  let revenueBase : ℚ := o.price * rem
  { type_id := o.type_id
    sell_order_id := o.order_id
    sell_date := o.issued
    quantity := rem
    purchase_price := 0
    sell_price := round2 o.price
    broker_fee_buy := 0
    broker_fee_sell := round2 (revenueBase * (sellRate / 100))
    sales_tax := round2 (revenueBase * (taxRate / 100))
    gross_profit := 0
    net_profit := 0
    purchase_order_id := none }

/-- The inner FIFO loop over the fetched inventory snapshot
(models.py:549-607): while units remain to sell, consume `min(remaining,
lot.quantity)` from the next lot, insert a profit row, and update or delete
the lot.  Returns the updated transaction and the unmatched remainder. -/
def consumeLots (sellRate taxRate : ℚ) (o : HistOrder) :
    List Lot → Int → RunAcc → RunAcc × Int
  | [], rem, acc => (acc, rem)
  | l :: rest, rem, acc =>
      if rem ≤ 0 then (acc, rem)
      else
        let qty := min rem l.quantity
        let acc := acc.emit (.insertProfit (mkMatchRecord sellRate taxRate o l qty))
        let newQty := l.quantity - qty
        let acc := if newQty > 0 then acc.emit (.updateLotQty l.id newQty)
                   else acc.emit (.deleteLot l.id)
        let acc := { acc with stats :=
          { acc.stats with items_sold := acc.stats.items_sold + qty } }
        consumeLots sellRate taxRate o rest (rem - qty) acc

/-- One iteration of the order loop in `process_character_orders`
(models.py:513-645): a buy order with positive effective volume inserts an
inventory lot; a sell order with positive effective volume runs the FIFO
loop and, if units remain, the sold-without-purchase fallback; every order
is then marked exhausted. -/
def processOrder (buyRate sellRate taxRate : ℚ) (acc : RunAcc) (o : HistOrder) :
    RunAcc :=
  let acc :=
    if o.is_buy_order then
      if o.volume_effective > 0 then
        let brokerFee : ℚ := o.price * o.volume_effective * (buyRate / 100)
        let acc := acc.emit (.insertLot o.type_id o.volume_effective
          (round2 o.price) o.order_id o.issued (round2 brokerFee))
        { acc with stats :=
          { acc.stats with
            items_added_to_inventory :=
              acc.stats.items_added_to_inventory + o.volume_effective
            buy_orders_processed := acc.stats.buy_orders_processed + 1 } }
      else acc
    else
      if o.volume_effective > 0 then
        let fetched := lotsForType acc.st o.type_id
        let res := consumeLots sellRate taxRate o fetched o.volume_effective acc
        let acc := res.1
        let acc :=
          if res.2 > 0 then
            let acc := acc.emit
              (.insertProfit (mkFallbackRecord sellRate taxRate o res.2))
            { acc with stats :=
              { acc.stats with items_sold_without_purchase :=
                  acc.stats.items_sold_without_purchase + res.2 } }
          else acc
        { acc with stats :=
          { acc.stats with
            sell_orders_processed := acc.stats.sell_orders_processed + 1 } }
      else acc
  acc.emit (.setExhausted o.order_id)

/-- The whole transaction body of `process_character_orders`
(models.py:472-648): fetch the unexhausted orders in ascending issued
order, then process each in turn. -/
def runEngine (buyRate sellRate taxRate : ℚ) (s : DBState) : RunAcc :=
  (selectUnexhausted s).foldl (processOrder buyRate sellRate taxRate)
    ⟨s, [], Stats.init⟩

/-- `process_character_orders` on a successful run: the committed state and
the returned statistics. -/
def process_character_orders (buyRate sellRate taxRate : ℚ) (s : DBState) :
    DBState × Stats :=
  let acc := runEngine buyRate sellRate taxRate s
  (acc.st, acc.stats)

/-- `process_character_orders` under fault injection: the run fails after
`k` writes have been staged.  If the whole log fits before the fault the
single `connection.commit()` (models.py:647) publishes every staged write;
otherwise the exception handler calls `connection.rollback()`
(models.py:650-659) and the function returns `None`. -/
def processWithFault (buyRate sellRate taxRate : ℚ) (k : Nat) (s : DBState) :
    Option (DBState × Stats) :=
  let acc := runEngine buyRate sellRate taxRate s
  if acc.log.length ≤ k then some (acc.st, acc.stats) else none

/-- The durable state visible after a (possibly faulted) run: the committed
state on success, the rolled-back original state on failure. -/
def visibleState (buyRate sellRate taxRate : ℚ) (k : Nat) (s : DBState) :
    DBState :=
  match processWithFault buyRate sellRate taxRate k s with
  | some (st, _) => st
  | none => s

/-- `COUNT(DISTINCT _)` over the values of a result column. -/
def distinctCount (l : List Nat) : Nat := l.dedup.length

/-- A row of either aggregation report: the grouping key, the two distinct
order counts, and the three monetary totals. -/
structure ReportRow (K : Type) where
  key : K
  buy_orders : Nat
  sell_orders : Nat
  total_sales : ℚ
  total_taxes : ℚ
  total_profit : ℚ
deriving DecidableEq, Repr

/-- `ORDER BY month DESC` on `(year, month)` keys. -/
def monthGe (a b : Nat × Nat) : Prop :=
  (b.1 < a.1 ∨ (b.1 = a.1 ∧ b.2 ≤ a.2))

instance : DecidableRel monthGe := fun _ _ =>
  inferInstanceAs (Decidable (_ ∨ _))

/-- `ORDER BY day DESC` on `(year, month, day)` keys. -/
def dayGe (a b : Nat × Nat × Nat) : Prop := dayLe b a = true

instance : DecidableRel dayGe := fun _ _ =>
  inferInstanceAs (Decidable (_ = true))

/-- The row `get_profit_by_months` produces for one month group `k`:
`COUNT(DISTINCT sell_order_id)`, `SUM(sell_price * quantity)`,
`SUM(broker_fee_sell + sales_tax)` and `SUM(net_profit)` over the profit
rows of that month, while `buy_orders` comes from the LEFT-JOINed history
subquery (`COUNT(DISTINCT order_id)` of the buy orders issued that month,
`COALESCE`d to 0 when the month has none). -/
def mkMonthRow (hist : List HistOrder) (ps : List ProfitRec) (k : Nat × Nat) :
    ReportRow (Nat × Nat) :=
  let grp := ps.filter (fun r => r.sell_date.monthKey = k)
  { key := k
    buy_orders := distinctCount
      ((hist.filter (fun o => o.is_buy_order && o.issued.monthKey = k)).map
        HistOrder.order_id)
    sell_orders := distinctCount (grp.map ProfitRec.sell_order_id)
    total_sales := (grp.map (fun r => r.sell_price * (r.quantity : ℚ))).sum
    total_taxes := (grp.map (fun r => r.broker_fee_sell + r.sales_tax)).sum
    total_profit := (grp.map ProfitRec.net_profit).sum }

/-- `get_profit_by_months` (models.py:666-728): one row per month that has
at least one profit record (`GROUP BY month` in the profit subquery drives
the LEFT JOIN), ordered by month descending. -/
def get_profit_by_months (hist : List HistOrder) (ps : List ProfitRec) :
    List (ReportRow (Nat × Nat)) :=
  (((ps.map (fun r => r.sell_date.monthKey)).dedup).insertionSort monthGe).map
    (mkMonthRow hist ps)

/-- `DATE(x) BETWEEN date_from AND date_to`. -/
def dayBetween (dfrom dto k : Nat × Nat × Nat) : Bool :=
  dayLe dfrom k && dayLe k dto

/-- The row `get_profit_by_days` produces for one day group `k` within the
requested range; same shape as the month row, with both subqueries
restricted to the range. -/
def mkDayRow (hist : List HistOrder) (ps : List ProfitRec)
    (dfrom dto : Nat × Nat × Nat) (k : Nat × Nat × Nat) :
    ReportRow (Nat × Nat × Nat) :=
  let grp := (ps.filter (fun r => dayBetween dfrom dto r.sell_date.dayKey)).filter
    (fun r => r.sell_date.dayKey = k)
  { key := k
    buy_orders := distinctCount
      ((hist.filter (fun o => o.is_buy_order &&
        dayBetween dfrom dto o.issued.dayKey && o.issued.dayKey = k)).map
        HistOrder.order_id)
    sell_orders := distinctCount (grp.map ProfitRec.sell_order_id)
    total_sales := (grp.map (fun r => r.sell_price * (r.quantity : ℚ))).sum
    total_taxes := (grp.map (fun r => r.broker_fee_sell + r.sales_tax)).sum
    total_profit := (grp.map ProfitRec.net_profit).sum }

/-- `get_profit_by_days` (models.py:731-796): one row per day in the
inclusive range that has at least one profit record, ordered by day
descending. -/
def get_profit_by_days (hist : List HistOrder) (ps : List ProfitRec)
    (dfrom dto : Nat × Nat × Nat) : List (ReportRow (Nat × Nat × Nat)) :=
  ((((ps.filter (fun r => dayBetween dfrom dto r.sell_date.dayKey)).map
      (fun r => r.sell_date.dayKey)).dedup).insertionSort dayGe).map
    (mkDayRow hist ps dfrom dto)

/-- `b` is reachable from `a` by issuing a batch of writes (the statistics
may change arbitrarily). -/
def Extends (a b : RunAcc) : Prop :=
  ∃ ws, b.st = applyWrites a.st ws ∧ b.log = a.log ++ ws

/-- `UPDATE history SET exhausted = 1 WHERE order_id = oid`
(models.py:640-645). -/
def markExhausted (oid : Nat) (h : List HistOrder) : List HistOrder :=
  h.map (fun o => if o.order_id = oid then { o with exhausted := true } else o)

/-! ### C7: no double counting of inventory -/

/-- Total `ProfitRecord.quantity` matched out of inventory lots (rows with
a non-null `purchase_order_id`) for one `type_id`. -/
def matchedQty (t : Nat) : List ProfitRec → Int
  | [] => 0
  | r :: rs =>
      (if r.type_id = t ∧ r.purchase_order_id.isSome then r.quantity else 0) +
        matchedQty t rs

/-- Total quantity currently held in inventory lots of one `type_id`. -/
def invQty (t : Nat) : List Lot → Int
  | [] => 0
  | l :: ls => (if l.type_id = t then l.quantity else 0) + invQty t ls

/-- Total quantity ever inserted into inventory lots of one `type_id` by
the writes of a run. -/
def lotAddedQty (t : Nat) : List Write → Int
  | [] => 0
  | .insertLot t' q _ _ _ _ :: ws => (if t' = t then q else 0) + lotAddedQty t ws
  | _ :: ws => lotAddedQty t ws

/-- Well-formedness of the inventory table: distinct primary keys, all
below the `AUTO_INCREMENT` counter, and strictly positive quantities (the
engine never keeps a zero-quantity lot). -/
def InvWF (s : DBState) : Prop :=
  (s.inventory.map Lot.id).Nodup ∧
  ∀ l ∈ s.inventory, 0 < l.quantity ∧ l.id < s.nextLotId

/-- The per-type quantity balance of a transaction: matched-out plus held
minus ever-added, measured against the accumulator's own log. -/
def qtyBal (t : Nat) (acc : RunAcc) : Int :=
  matchedQty t acc.st.profits + invQty t acc.st.inventory -
    lotAddedQty t acc.log

/-! ### Shape of every profit row the engine inserts (for C2, C3, C9) -/

/-- Profit rows extracted from a write log, in insertion order. -/
def profitsOf (ws : List Write) : List ProfitRec :=
  ws.filterMap (fun w => match w with | .insertProfit r => some r | _ => none)

/-- Every profit row the engine inserts is either a lot-match row built by
`mkMatchRecord` from a sell order and a lot whose monetary columns hold
two-decimal values, or a sold-without-purchase fallback row built by
`mkFallbackRecord`; and every inventory-lot row it inserts carries
column-rounded monetary values. -/
def ProfitWriteShape (sr tr : ℚ) (w : Write) : Prop :=
  (∀ r, w = .insertProfit r →
    (∃ o l qty, Is2dp o.price ∧ Is2dp l.purchase_price ∧
      r = mkMatchRecord sr tr o l qty) ∨
    (∃ o rem, Is2dp o.price ∧ r = mkFallbackRecord sr tr o rem)) ∧
  (∀ t q pp poid pd fee, w = .insertLot t q pp poid pd fee →
    (∃ x, pp = round2 x) ∧ (∃ y, fee = round2 y))

/-- Invariant carried through a run: all lot purchase prices are
two-decimal values and every logged profit insert has the record shape. -/
def RunShapeInv (sr tr : ℚ) (acc : RunAcc) : Prop :=
  (∀ l ∈ acc.st.inventory, Is2dp l.purchase_price) ∧
  ∀ w ∈ acc.log, ProfitWriteShape sr tr w

/-! ### Theorems -/

theorem round2_eq_self {x : ℚ} (h : Is2dp x) : round2 x = x := by
  obtain ⟨n, rfl⟩ := h
  have h100 : (100 : ℚ) * ((n : ℚ) / 100) = (n : ℚ) := by ring
  unfold round2 mysqlRound
  rw [h100]
  rcases le_or_lt 0 (n : ℚ) with hn | hn
  · rw [if_pos hn]
    have : ⌊(n : ℚ) + 1/2⌋ = n := by
      rw [Int.floor_eq_iff]
      constructor <;> [linarith; linarith]
    rw [this]
  · rw [if_neg (not_le.mpr hn)]
    have : ⌊-(n : ℚ) + 1/2⌋ = -n := by
      rw [Int.floor_eq_iff]
      constructor
      · push_cast
        linarith
      · push_cast
        linarith
    rw [this]
    push_cast
    ring

theorem round2_is2dp (x : ℚ) : Is2dp (round2 x) :=
  ⟨mysqlRound (100 * x), rfl⟩

theorem Is2dp.add {x y : ℚ} (hx : Is2dp x) (hy : Is2dp y) : Is2dp (x + y) := by
  obtain ⟨n, rfl⟩ := hx
  obtain ⟨k, rfl⟩ := hy
  exact ⟨n + k, by push_cast; ring⟩

theorem Is2dp.neg {x : ℚ} (hx : Is2dp x) : Is2dp (-x) := by
  obtain ⟨n, rfl⟩ := hx
  exact ⟨-n, by push_cast; ring⟩

theorem Is2dp.sub {x y : ℚ} (hx : Is2dp x) (hy : Is2dp y) : Is2dp (x - y) := by
  simpa [sub_eq_add_neg] using hx.add hy.neg

theorem Is2dp.int_mul (q : ℤ) {x : ℚ} (hx : Is2dp x) : Is2dp ((q : ℚ) * x) := by
  obtain ⟨n, rfl⟩ := hx
  exact ⟨q * n, by push_cast; ring⟩

/-! ### Basic facts about the transaction log -/

theorem applyWrites_append (s : DBState) (ws : List Write) (ws' : List Write) :
    applyWrites s (ws ++ ws') = applyWrites (applyWrites s ws) ws' := by
  simp [applyWrites]

theorem Extends.refl (a : RunAcc) : Extends a a := ⟨[], rfl, by simp⟩

theorem Extends.emit (a : RunAcc) (w : Write) : Extends a (a.emit w) :=
  ⟨[w], rfl, rfl⟩

theorem Extends.trans {a b c : RunAcc} (h1 : Extends a b) (h2 : Extends b c) :
    Extends a c := by
  obtain ⟨ws1, hst1, hlog1⟩ := h1
  obtain ⟨ws2, hst2, hlog2⟩ := h2
  exact ⟨ws1 ++ ws2, by rw [hst2, hst1, applyWrites_append],
    by rw [hlog2, hlog1, List.append_assoc]⟩

theorem Extends.mk_st_log {a b : RunAcc} (h : Extends a b) (st : Stats) :
    Extends a ⟨b.st, b.log, st⟩ := h

theorem consumeLots_extends (sr tr : ℚ) (o : HistOrder) :
    ∀ (lots : List Lot) (rem : Int) (acc : RunAcc),
      Extends acc (consumeLots sr tr o lots rem acc).1
  | [], _, acc => Extends.refl acc
  | l :: rest, rem, acc => by
    rw [consumeLots]
    split
    · exact Extends.refl acc
    · dsimp only
      refine Extends.trans ?_ (consumeLots_extends sr tr o rest _ _)
      refine Extends.mk_st_log ?_ _
      split
      · exact ((Extends.emit acc _).trans (Extends.emit _ _))
      · exact ((Extends.emit acc _).trans (Extends.emit _ _))

theorem processOrder_extends (br sr tr : ℚ) (acc : RunAcc) (o : HistOrder) :
    Extends acc (processOrder br sr tr acc o) := by
  unfold processOrder
  refine Extends.trans ?_ (Extends.emit _ _)
  split
  · split
    · exact Extends.mk_st_log (Extends.emit acc _) _
    · exact Extends.refl acc
  · split
    · dsimp only
      refine Extends.mk_st_log ?_ _
      split
      · exact Extends.mk_st_log
          ((consumeLots_extends sr tr o _ _ _).trans (Extends.emit _ _)) _
      · exact consumeLots_extends sr tr o _ _ _
    · exact Extends.refl acc

theorem runEngine_extends (br sr tr : ℚ) (s : DBState) :
    Extends ⟨s, [], Stats.init⟩ (runEngine br sr tr s) := by
  unfold runEngine
  generalize selectUnexhausted s = l
  have h : ∀ (acc : RunAcc), ∀ a, Extends a acc →
      Extends a (l.foldl (processOrder br sr tr) acc) := by
    induction l with
    | nil => exact fun acc a h => h
    | cons x xs ih =>
      exact fun acc a h =>
        ih _ _ (h.trans (processOrder_extends br sr tr acc x))
  exact h _ _ (Extends.refl _)

/-- The committed state of a run is the base state with the run's log
applied in order. -/
theorem runEngine_coherent (br sr tr : ℚ) (s : DBState) :
    (runEngine br sr tr s).st = applyWrites s (runEngine br sr tr s).log := by
  obtain ⟨ws, hst, hlog⟩ := runEngine_extends br sr tr s
  rw [hst, hlog]
  rfl

/-! ### C1: global temporal order, per-type FIFO lot order -/

/-- C1: a matching run processes exactly the trader's unmatched
(`exhausted = false`) orders, in globally ascending `issued` order across
all commodity types (the engine folds over `selectUnexhausted s` in list
order), and the inventory snapshot a sell order consumes from contains
exactly the lots of its `type_id`, ordered by `purchase_date` ascending
with ties broken by insertion id ascending. -/
theorem process_character_orders_fifo_order (s : DBState) (t : Nat) :
    (selectUnexhausted s).Sorted issuedLe ∧
    (selectUnexhausted s).Perm (s.history.filter (fun o => !o.exhausted)) ∧
    (lotsForType s t).Sorted lotLe ∧
    (lotsForType s t).Perm (s.inventory.filter (fun l => l.type_id = t)) :=
  ⟨List.sorted_insertionSort issuedLe _, List.perm_insertionSort issuedLe _,
   List.sorted_insertionSort lotLe _, List.perm_insertionSort lotLe _⟩

/-! ### C4: transactional atomicity of a matching run -/

/-- C4: a matching run is atomic.  Either the single commit publishes every
staged write of the run at once (the committed state is exactly the base
state with the whole log applied), or a fault before commit rolls the run
back: the call surfaces `none`, the durable state is unchanged, every order
the run had selected still has `exhausted = false`, and a retry selects
exactly the same orders again. -/
theorem process_character_orders_atomic (br sr tr : ℚ) (k : Nat) (s : DBState) :
    (processWithFault br sr tr k s = some (process_character_orders br sr tr s) ∧
      (process_character_orders br sr tr s).1 =
        applyWrites s (runEngine br sr tr s).log) ∨
    (processWithFault br sr tr k s = none ∧
      visibleState br sr tr k s = s ∧
      ((selectUnexhausted (visibleState br sr tr k s)).all
        (fun o => !o.exhausted)) = true ∧
      selectUnexhausted (visibleState br sr tr k s) = selectUnexhausted s) := by
  by_cases h : (runEngine br sr tr s).log.length ≤ k
  · left
    exact ⟨by simp [processWithFault, process_character_orders, h],
      runEngine_coherent br sr tr s⟩
  · right
    have hnone : processWithFault br sr tr k s = none := by
      simp [processWithFault, h]
    have hvis : visibleState br sr tr k s = s := by
      simp [visibleState, hnone]
    refine ⟨hnone, hvis, ?_, by rw [hvis]⟩
    rw [hvis]
    simp only [List.all_eq_true, selectUnexhausted, List.mem_insertionSort]
    intro o ho
    exact (List.mem_filter.mp ho).2

/-! ### C5: every selected order is exhausted; re-runs are no-ops -/

theorem consumeLots_history (sr tr : ℚ) (o : HistOrder) :
    ∀ (lots : List Lot) (rem : Int) (acc : RunAcc),
      (consumeLots sr tr o lots rem acc).1.st.history = acc.st.history
  | [], _, _ => rfl
  | l :: rest, rem, acc => by
    rw [consumeLots]
    split
    · rfl
    · dsimp only
      rw [consumeLots_history sr tr o rest]
      split <;> rfl

theorem processOrder_history (br sr tr : ℚ) (acc : RunAcc) (o : HistOrder) :
    (processOrder br sr tr acc o).st.history =
      markExhausted o.order_id acc.st.history := by
  unfold processOrder
  show (applyW _ _).history = _
  split
  · split <;> rfl
  · split
    · dsimp only
      show markExhausted o.order_id _ = _
      unfold markExhausted
      congr 1
      split
      · exact consumeLots_history sr tr o _ _ _
      · exact consumeLots_history sr tr o _ _ _
    · rfl

theorem foldl_exhausts (br sr tr : ℚ) :
    ∀ (l : List HistOrder) (acc : RunAcc),
      (∀ o ∈ acc.st.history,
        o.exhausted = true ∨ o.order_id ∈ l.map HistOrder.order_id) →
      ∀ o ∈ (l.foldl (processOrder br sr tr) acc).st.history, o.exhausted = true
  | [], acc, hpre, o, ho => by
    rcases hpre o ho with h | h
    · exact h
    · simp at h
  | x :: xs, acc, hpre, o, ho => by
    refine foldl_exhausts br sr tr xs (processOrder br sr tr acc x) ?_ o ho
    intro o' ho'
    rw [processOrder_history, markExhausted] at ho'
    obtain ⟨o0, ho0, rfl⟩ := List.mem_map.mp ho'
    by_cases hid : o0.order_id = x.order_id
    · simp [hid]
    · simp only [hid, ite_false]
      rcases hpre o0 ho0 with h | h
      · exact Or.inl h
      · simp only [List.map_cons, List.mem_cons] at h
        rcases h with h | h
        · exact absurd h hid
        · exact Or.inr h

/-- C5: after a successful matching run every ledger row is exhausted (in
particular every order the run selected, zero-effective-volume ones
included); hence an immediate re-run selects zero orders, creates nothing,
and returns the untouched state with all-zero statistics. -/
theorem process_character_orders_exhausts_all (br sr tr : ℚ) (s : DBState) :
    ((process_character_orders br sr tr s).1.history.all
      (fun o => o.exhausted)) = true ∧
    selectUnexhausted (process_character_orders br sr tr s).1 = [] ∧
    process_character_orders br sr tr (process_character_orders br sr tr s).1 =
      ((process_character_orders br sr tr s).1, Stats.init) := by
  have hall : ∀ o ∈ (process_character_orders br sr tr s).1.history,
      o.exhausted = true := by
    intro o ho
    refine foldl_exhausts br sr tr (selectUnexhausted s) ⟨s, [], Stats.init⟩ ?_ o ho
    intro o' ho'
    by_cases hex : o'.exhausted
    · exact Or.inl hex
    · refine Or.inr (List.mem_map.mpr ⟨o', ?_, rfl⟩)
      simp only [selectUnexhausted, List.mem_insertionSort, List.mem_filter]
      exact ⟨ho', by simpa using hex⟩
  have hsel : selectUnexhausted (process_character_orders br sr tr s).1 = [] := by
    unfold selectUnexhausted
    have : (process_character_orders br sr tr s).1.history.filter
        (fun o => !o.exhausted) = [] := by
      rw [List.filter_eq_nil_iff]
      intro o ho
      simp [hall o ho]
    rw [this]
    rfl
  refine ⟨List.all_eq_true.mpr (fun o ho => by simpa using hall o ho), hsel, ?_⟩
  show (let acc := runEngine br sr tr _; (acc.st, acc.stats)) = _
  unfold runEngine
  rw [hsel]
  rfl

/-! ### C6: idempotent insert-or-ignore ingestion -/

theorem ingest_mem_ids (table : List HistOrder) (o : RawOrder)
    (h : o.order_id ∈ table.map HistOrder.order_id) :
    ((table.map HistOrder.order_id).contains o.order_id) = true := by
  simpa [List.contains, List.elem_eq_mem] using h

theorem ingest_skip_all :
    ∀ (orders : List RawOrder) (table : List HistOrder) (i k : Nat),
      (∀ o ∈ orders, o.order_id ∈ table.map HistOrder.order_id) →
      orders.foldl
        (fun acc o =>
          if (acc.1.map HistOrder.order_id).contains o.order_id then
            (acc.1, (acc.2.1, acc.2.2 + 1))
          else
            (acc.1 ++ [{ order_id := o.order_id
                         is_buy_order := o.is_buy_order
                         issued := o.issued
                         price := round2 o.price
                         type_id := o.type_id
                         volume_effective := o.volume_total - o.volume_remain
                         exhausted := false }],
             (acc.2.1 + 1, acc.2.2)))
        (table, (i, k)) = (table, (i, k + orders.length))
  | [], table, i, k, _ => rfl
  | o :: os, table, i, k, h => by
    rw [List.foldl_cons, if_pos (ingest_mem_ids table o (h o (List.mem_cons_self o os)))]
    rw [ingest_skip_all os table i (k + 1) (fun o' ho' => h o' (List.mem_cons_of_mem o ho'))]
    have hk : k + 1 + os.length = k + (o :: os).length := by
      simp only [List.length_cons]
      omega
    rw [hk]

theorem ingest_ids_grow :
    ∀ (orders : List RawOrder) (table : List HistOrder) (i k : Nat),
      ∀ o ∈ orders, o.order_id ∈
        ((orders.foldl
          (fun acc o =>
            if (acc.1.map HistOrder.order_id).contains o.order_id then
              (acc.1, (acc.2.1, acc.2.2 + 1))
            else
              (acc.1 ++ [{ order_id := o.order_id
                           is_buy_order := o.is_buy_order
                           issued := o.issued
                           price := round2 o.price
                           type_id := o.type_id
                           volume_effective := o.volume_total - o.volume_remain
                           exhausted := false }],
               (acc.2.1 + 1, acc.2.2)))
          (table, (i, k))).1.map HistOrder.order_id) := by
  have hmono : ∀ (orders : List RawOrder) (table : List HistOrder) (i k : Nat)
      (x : Nat), x ∈ table.map HistOrder.order_id →
      x ∈ ((orders.foldl
        (fun acc o =>
          if (acc.1.map HistOrder.order_id).contains o.order_id then
            (acc.1, (acc.2.1, acc.2.2 + 1))
          else
            (acc.1 ++ [{ order_id := o.order_id
                         is_buy_order := o.is_buy_order
                         issued := o.issued
                         price := round2 o.price
                         type_id := o.type_id
                         volume_effective := o.volume_total - o.volume_remain
                         exhausted := false }],
             (acc.2.1 + 1, acc.2.2)))
        (table, (i, k))).1.map HistOrder.order_id) := by
    intro orders
    induction orders with
    | nil => exact fun table i k x hx => hx
    | cons o os ih =>
      intro table i k x hx
      rw [List.foldl_cons]
      by_cases hc : ((table.map HistOrder.order_id).contains o.order_id) = true
      · rw [if_pos hc]
        exact ih table i (k + 1) x hx
      · rw [if_neg hc]
        refine ih _ _ _ x ?_
        simpa using Or.inl hx
  intro orders
  induction orders with
  | nil => intro table i k o ho; simp at ho
  | cons o os ih =>
    intro table i k o' ho'
    rw [List.foldl_cons]
    rcases List.mem_cons.mp ho' with rfl | hmem
    · by_cases hc : ((table.map HistOrder.order_id).contains o'.order_id) = true
      · rw [if_pos hc]
        refine hmono os table i (k + 1) o'.order_id ?_
        simpa [List.contains, List.elem_eq_mem] using hc
      · rw [if_neg hc]
        refine hmono os _ _ _ o'.order_id ?_
        simp
    · by_cases hc : ((table.map HistOrder.order_id).contains o.order_id) = true
      · rw [if_pos hc]
        exact ih table i (k + 1) o' hmem
      · rw [if_neg hc]
        exact ih _ _ _ o' hmem

/-- C6: ingestion is insert-or-ignore keyed by `order_id`.  Persisting a
batch whose order ids all already exist inserts zero rows, counts every
order as skipped and leaves the table unchanged; consequently re-running
ingestion over the same orders a second time is a no-op that skips the
whole batch. -/
theorem save_character_order_history_idempotent (table : List HistOrder)
    (orders : List RawOrder) :
    ((∀ o ∈ orders, o.order_id ∈ table.map HistOrder.order_id) →
      save_character_order_history table orders = (table, (0, orders.length))) ∧
    save_character_order_history
        (save_character_order_history table orders).1 orders =
      ((save_character_order_history table orders).1, (0, orders.length)) := by
  constructor
  · intro h
    have := ingest_skip_all orders table 0 0 h
    simpa [save_character_order_history] using this
  · have := ingest_skip_all orders (save_character_order_history table orders).1 0 0
      (ingest_ids_grow orders table 0 0)
    simpa [save_character_order_history] using this

/-- Witness for C6 at a concrete table and batch. -/
theorem save_character_order_history_idempotent_witness :
    (∀ o ∈ [(⟨5, true, ⟨2024, 2, 3, 0⟩, 10, 34, 2, 7⟩ : RawOrder)],
      o.order_id ∈
        [(⟨5, true, ⟨2024, 2, 3, 0⟩, 10, 34, 5, false⟩ : HistOrder)].map
          HistOrder.order_id) ∧
    save_character_order_history
        [(⟨5, true, ⟨2024, 2, 3, 0⟩, 10, 34, 5, false⟩ : HistOrder)]
        [(⟨5, true, ⟨2024, 2, 3, 0⟩, 10, 34, 2, 7⟩ : RawOrder)] =
      ([(⟨5, true, ⟨2024, 2, 3, 0⟩, 10, 34, 5, false⟩ : HistOrder)], (0, 1)) := by
  have h := (save_character_order_history_idempotent
    [(⟨5, true, ⟨2024, 2, 3, 0⟩, 10, 34, 5, false⟩ : HistOrder)]
    [(⟨5, true, ⟨2024, 2, 3, 0⟩, 10, 34, 2, 7⟩ : RawOrder)]).1
  refine ⟨by simp, h ?_⟩
  simp

theorem matchedQty_append (t : Nat) (a b : List ProfitRec) :
    matchedQty t (a ++ b) = matchedQty t a + matchedQty t b := by
  induction a with
  | nil => simp [matchedQty]
  | cons r rs ih => simp [matchedQty, ih]; ring

theorem invQty_append (t : Nat) (a b : List Lot) :
    invQty t (a ++ b) = invQty t a + invQty t b := by
  induction a with
  | nil => simp [invQty]
  | cons l ls ih => simp [invQty, ih]; ring

theorem lotAddedQty_append (t : Nat) (a b : List Write) :
    lotAddedQty t (a ++ b) = lotAddedQty t a + lotAddedQty t b := by
  induction a with
  | nil => simp [lotAddedQty]
  | cons w ws ih =>
    cases w <;> simp [lotAddedQty, ih] <;> ring

theorem invQty_nonneg (t : Nat) (inv : List Lot)
    (h : ∀ l ∈ inv, 0 < l.quantity) : 0 ≤ invQty t inv := by
  induction inv with
  | nil => simp [invQty]
  | cons l ls ih =>
    have h1 := h l (List.mem_cons_self l ls)
    have h2 := ih (fun x hx => h x (List.mem_cons_of_mem l hx))
    unfold invQty
    split <;> omega

theorem invQty_update (t : Nat) (i : Nat) (q : Int) :
    ∀ (inv : List Lot), (inv.map Lot.id).Nodup → ∀ l ∈ inv, l.id = i →
      invQty t (inv.map (fun x => if x.id = i then { x with quantity := q } else x)) =
        invQty t inv + (if l.type_id = t then q - l.quantity else 0)
  | [], _, l, hl, _ => absurd hl (List.not_mem_nil l)
  | x :: xs, hnd, l, hl, hi => by
    simp only [List.map_cons, List.nodup_cons] at hnd
    rcases List.mem_cons.mp hl with rfl | hmem
    · rw [List.map_cons, if_pos hi]
      have hrest : xs.map (fun x => if x.id = i then { x with quantity := q } else x)
          = xs := by
        have hcongr : ∀ a ∈ xs,
            (if a.id = i then { a with quantity := q } else a) = id a := by
          intro a ha
          rw [if_neg, id]
          intro hai
          apply hnd.1
          have hla : l.id = a.id := by rw [hai, hi]
          rw [hla]
          exact List.mem_map_of_mem Lot.id ha
        rw [List.map_congr_left hcongr, List.map_id]
      rw [hrest]
      simp only [invQty]
      split <;> ring
    · have hxi : ¬ x.id = i := by
        intro hxi
        exact hnd.1 (hxi ▸ hi ▸ List.mem_map_of_mem Lot.id hmem)
      rw [List.map_cons, if_neg hxi]
      simp only [invQty]
      rw [invQty_update t i q xs hnd.2 l hmem hi]
      ring

theorem invQty_delete (t : Nat) (i : Nat) :
    ∀ (inv : List Lot), (inv.map Lot.id).Nodup → ∀ l ∈ inv, l.id = i →
      invQty t (inv.filter (fun x => x.id ≠ i)) =
        invQty t inv - (if l.type_id = t then l.quantity else 0)
  | [], _, l, hl, _ => absurd hl (List.not_mem_nil l)
  | x :: xs, hnd, l, hl, hi => by
    simp only [List.map_cons, List.nodup_cons] at hnd
    rcases List.mem_cons.mp hl with rfl | hmem
    · rw [List.filter_cons, if_neg (by simp [hi])]
      have hrest : xs.filter (fun x => x.id ≠ i) = xs := by
        apply List.filter_eq_self.mpr
        intro a ha
        simp only [ne_eq, decide_not, Bool.not_eq_eq_eq_not, Bool.not_true,
          decide_eq_false_iff_not]
        intro hai
        apply hnd.1
        have hla : l.id = a.id := by rw [hai, hi]
        rw [hla]
        exact List.mem_map_of_mem Lot.id ha
      rw [hrest]
      simp only [invQty]
      split <;> ring
    · have hxi : ¬ x.id = i := by
        intro hxi
        exact hnd.1 (hxi ▸ hi ▸ List.mem_map_of_mem Lot.id hmem)
      rw [List.filter_cons, if_pos (by simp [hxi])]
      simp only [invQty]
      rw [invQty_delete t i xs hnd.2 l hmem hi]
      ring

@[simp] theorem emit_st (acc : RunAcc) (w : Write) :
    (acc.emit w).st = applyW acc.st w := rfl

@[simp] theorem emit_log (acc : RunAcc) (w : Write) :
    (acc.emit w).log = acc.log ++ [w] := rfl

@[simp] theorem applyW_insertProfit_inventory (s : DBState) (r : ProfitRec) :
    (applyW s (.insertProfit r)).inventory = s.inventory := rfl

@[simp] theorem applyW_insertProfit_profits (s : DBState) (r : ProfitRec) :
    (applyW s (.insertProfit r)).profits = s.profits ++ [r] := rfl

@[simp] theorem applyW_insertProfit_nextLotId (s : DBState) (r : ProfitRec) :
    (applyW s (.insertProfit r)).nextLotId = s.nextLotId := rfl

@[simp] theorem applyW_updateLotQty_inventory (s : DBState) (i : Nat) (q : Int) :
    (applyW s (.updateLotQty i q)).inventory =
      s.inventory.map (fun x => if x.id = i then { x with quantity := q } else x) := rfl

@[simp] theorem applyW_updateLotQty_profits (s : DBState) (i : Nat) (q : Int) :
    (applyW s (.updateLotQty i q)).profits = s.profits := rfl

@[simp] theorem applyW_updateLotQty_nextLotId (s : DBState) (i : Nat) (q : Int) :
    (applyW s (.updateLotQty i q)).nextLotId = s.nextLotId := rfl

@[simp] theorem applyW_deleteLot_inventory (s : DBState) (i : Nat) :
    (applyW s (.deleteLot i)).inventory =
      s.inventory.filter (fun x => x.id ≠ i) := rfl

@[simp] theorem applyW_deleteLot_profits (s : DBState) (i : Nat) :
    (applyW s (.deleteLot i)).profits = s.profits := rfl

@[simp] theorem applyW_deleteLot_nextLotId (s : DBState) (i : Nat) :
    (applyW s (.deleteLot i)).nextLotId = s.nextLotId := rfl

theorem upd_id (i : Nat) (q : Int) (x : Lot) :
    (if x.id = i then { x with quantity := q } else x).id = x.id := by
  split <;> rfl

theorem InvWF_update {s : DBState} (hwf : InvWF s) (i : Nat) (q : Int)
    (hq : 0 < q) :
    InvWF { s with inventory :=
      s.inventory.map (fun x => if x.id = i then { x with quantity := q } else x) } := by
  obtain ⟨hnd, hmem⟩ := hwf
  constructor
  · have : (s.inventory.map (fun x => if x.id = i then { x with quantity := q } else x)).map
        Lot.id = s.inventory.map Lot.id := by
      rw [List.map_map]
      exact List.map_congr_left (fun x _ => upd_id i q x)
    rw [this]
    exact hnd
  · intro y hy
    obtain ⟨x, hx, rfl⟩ := List.mem_map.mp hy
    rcases hmem x hx with ⟨hq0, hid⟩
    constructor
    · split <;> [exact hq; exact hq0]
    · rw [upd_id]
      exact hid

theorem InvWF_delete {s : DBState} (hwf : InvWF s) (i : Nat) :
    InvWF { s with inventory := s.inventory.filter (fun x => x.id ≠ i) } := by
  obtain ⟨hnd, hmem⟩ := hwf
  constructor
  · exact ((List.filter_sublist _).map Lot.id).nodup hnd
  · intro y hy
    exact hmem y (List.mem_of_mem_filter hy)

theorem mem_inventory_update {inv : List Lot} {x : Lot} (hx : x ∈ inv)
    (i : Nat) (q : Int) (hne : x.id ≠ i) :
    x ∈ inv.map (fun y => if y.id = i then { y with quantity := q } else y) := by
  have : (if x.id = i then { x with quantity := q } else x) = x := if_neg hne
  rw [← this]
  exact List.mem_map_of_mem _ hx

theorem mem_inventory_delete {inv : List Lot} {x : Lot} (hx : x ∈ inv)
    (i : Nat) (hne : x.id ≠ i) :
    x ∈ inv.filter (fun y => y.id ≠ i) :=
  List.mem_filter.mpr ⟨hx, by simpa using hne⟩

theorem mkMatchRecord_type_id (sr tr : ℚ) (o : HistOrder) (l : Lot) (q : Int) :
    (mkMatchRecord sr tr o l q).type_id = o.type_id := rfl

theorem mkMatchRecord_quantity (sr tr : ℚ) (o : HistOrder) (l : Lot) (q : Int) :
    (mkMatchRecord sr tr o l q).quantity = q := rfl

theorem mkMatchRecord_source (sr tr : ℚ) (o : HistOrder) (l : Lot) (q : Int) :
    (mkMatchRecord sr tr o l q).purchase_order_id = some l.purchase_order_id := rfl

theorem consumeLots_qty (sr tr : ℚ) (o : HistOrder) :
    ∀ (lots : List Lot) (rem : Int) (acc : RunAcc),
      InvWF acc.st →
      (∀ l ∈ lots, l ∈ acc.st.inventory) →
      (lots.map Lot.id).Nodup →
      (∀ l ∈ lots, l.type_id = o.type_id) →
      InvWF (consumeLots sr tr o lots rem acc).1.st ∧
      ∀ t, qtyBal t (consumeLots sr tr o lots rem acc).1 = qtyBal t acc
  | [], _, acc => fun hwf _ _ _ => ⟨hwf, fun _ => rfl⟩
  | l :: rest, rem, acc => by
    intro hwf hmem hnd htyp
    have hlmem : l ∈ acc.st.inventory := hmem l (List.mem_cons_self l rest)
    have hltyp : l.type_id = o.type_id := htyp l (List.mem_cons_self l rest)
    have hndrest : (rest.map Lot.id).Nodup := by
      simpa using (List.nodup_cons.mp (by simpa using hnd)).2
    have hheadnotin : l.id ∉ rest.map Lot.id :=
      (List.nodup_cons.mp (by simpa using hnd)).1
    have htyprest : ∀ x ∈ rest, x.type_id = o.type_id :=
      fun x hx => htyp x (List.mem_cons_of_mem l hx)
    have hxid : ∀ x ∈ rest, ¬ x.id = l.id :=
      fun x hx hxl => hheadnotin (hxl ▸ List.mem_map_of_mem Lot.id hx)
    rw [consumeLots]
    split
    · exact ⟨hwf, fun _ => rfl⟩
    · rename_i hrem
      dsimp only
      by_cases hq : l.quantity - min rem l.quantity > 0
      · rw [if_pos hq]
        have hwf1 : InvWF (applyW (applyW acc.st
            (.insertProfit (mkMatchRecord sr tr o l (min rem l.quantity))))
            (.updateLotQty l.id (l.quantity - min rem l.quantity))) :=
          InvWF_update hwf l.id _ hq
        have hmem1 : ∀ x ∈ rest, x ∈ (applyW (applyW acc.st
            (.insertProfit (mkMatchRecord sr tr o l (min rem l.quantity))))
            (.updateLotQty l.id (l.quantity - min rem l.quantity))).inventory :=
          fun x hx => mem_inventory_update
            (hmem x (List.mem_cons_of_mem l hx)) l.id _ (hxid x hx)
        constructor
        · exact (consumeLots_qty sr tr o rest _ _ hwf1 hmem1 hndrest htyprest).1
        · intro t
          refine ((consumeLots_qty sr tr o rest _ _ hwf1 hmem1 hndrest
            htyprest).2 t).trans ?_
          unfold qtyBal
          simp only [emit_st, emit_log, applyW_insertProfit_profits,
            applyW_updateLotQty_profits, applyW_insertProfit_inventory,
            applyW_updateLotQty_inventory]
          rw [matchedQty_append,
            invQty_update t l.id (l.quantity - min rem l.quantity)
              acc.st.inventory hwf.1 l hlmem rfl,
            List.append_assoc, lotAddedQty_append]
          simp only [matchedQty, mkMatchRecord_type_id, mkMatchRecord_quantity,
            mkMatchRecord_source, Option.isSome_some, and_true, lotAddedQty,
            List.cons_append, List.nil_append]
          rw [hltyp]
          split <;> ring
      · rw [if_neg hq]
        have hqeq : min rem l.quantity = l.quantity := by
          have := (hwf.2 l hlmem).1
          omega
        have hwf1 : InvWF (applyW (applyW acc.st
            (.insertProfit (mkMatchRecord sr tr o l (min rem l.quantity))))
            (.deleteLot l.id)) :=
          InvWF_delete hwf l.id
        have hmem1 : ∀ x ∈ rest, x ∈ (applyW (applyW acc.st
            (.insertProfit (mkMatchRecord sr tr o l (min rem l.quantity))))
            (.deleteLot l.id)).inventory :=
          fun x hx => mem_inventory_delete
            (hmem x (List.mem_cons_of_mem l hx)) l.id (hxid x hx)
        constructor
        · exact (consumeLots_qty sr tr o rest _ _ hwf1 hmem1 hndrest htyprest).1
        · intro t
          refine ((consumeLots_qty sr tr o rest _ _ hwf1 hmem1 hndrest
            htyprest).2 t).trans ?_
          unfold qtyBal
          simp only [emit_st, emit_log, applyW_insertProfit_profits,
            applyW_deleteLot_profits, applyW_insertProfit_inventory,
            applyW_deleteLot_inventory]
          rw [matchedQty_append,
            invQty_delete t l.id acc.st.inventory hwf.1 l hlmem rfl,
            List.append_assoc, lotAddedQty_append]
          simp only [matchedQty, mkMatchRecord_type_id, mkMatchRecord_quantity,
            mkMatchRecord_source, Option.isSome_some, and_true, lotAddedQty,
            List.cons_append, List.nil_append]
          rw [hltyp, hqeq]
          split <;> ring

@[simp] theorem applyW_insertLot_inventory (s : DBState) (t : Nat) (q : Int)
    (pp : ℚ) (poid : Nat) (pd : DateTime) (fee : ℚ) :
    (applyW s (.insertLot t q pp poid pd fee)).inventory =
      s.inventory ++
        [{ id := s.nextLotId, type_id := t, quantity := q,
           purchase_price := pp, purchase_order_id := poid,
           purchase_date := pd, broker_fee_buy := fee }] := rfl

@[simp] theorem applyW_insertLot_profits (s : DBState) (t : Nat) (q : Int)
    (pp : ℚ) (poid : Nat) (pd : DateTime) (fee : ℚ) :
    (applyW s (.insertLot t q pp poid pd fee)).profits = s.profits := rfl

@[simp] theorem applyW_insertLot_nextLotId (s : DBState) (t : Nat) (q : Int)
    (pp : ℚ) (poid : Nat) (pd : DateTime) (fee : ℚ) :
    (applyW s (.insertLot t q pp poid pd fee)).nextLotId = s.nextLotId + 1 := rfl

@[simp] theorem applyW_setExhausted_inventory (s : DBState) (oid : Nat) :
    (applyW s (.setExhausted oid)).inventory = s.inventory := rfl

@[simp] theorem applyW_setExhausted_profits (s : DBState) (oid : Nat) :
    (applyW s (.setExhausted oid)).profits = s.profits := rfl

@[simp] theorem applyW_setExhausted_nextLotId (s : DBState) (oid : Nat) :
    (applyW s (.setExhausted oid)).nextLotId = s.nextLotId := rfl

theorem InvWF_setExhausted {s : DBState} (hwf : InvWF s) (oid : Nat) :
    InvWF (applyW s (.setExhausted oid)) := hwf

theorem InvWF_insertLot {s : DBState} (hwf : InvWF s) (t : Nat) {q : Int}
    (hq : 0 < q) (pp : ℚ) (poid : Nat) (pd : DateTime) (fee : ℚ) :
    InvWF (applyW s (.insertLot t q pp poid pd fee)) := by
  obtain ⟨hnd, hmem⟩ := hwf
  constructor
  · rw [applyW_insertLot_inventory, List.map_append]
    simp only [List.map_cons, List.map_nil]
    rw [List.nodup_append]
    refine ⟨hnd, List.nodup_singleton _, ?_⟩
    intro x hx
    simp only [List.mem_singleton]
    intro hx'
    obtain ⟨lx, hlx, rfl⟩ := List.mem_map.mp hx
    exact absurd (hx' ▸ (hmem lx hlx).2) (lt_irrefl _)
  · intro y hy
    rw [applyW_insertLot_inventory] at hy
    rcases List.mem_append.mp hy with hy | hy
    · rcases hmem y hy with ⟨h1, h2⟩
      refine ⟨h1, ?_⟩
      rw [applyW_insertLot_nextLotId]
      omega
    · rcases List.mem_singleton.mp hy with rfl
      refine ⟨hq, ?_⟩
      rw [applyW_insertLot_nextLotId]
      show s.nextLotId < s.nextLotId + 1
      omega

theorem lotsForType_spec (s : DBState) (t : Nat) (hwf : InvWF s) :
    (∀ x ∈ lotsForType s t, x ∈ s.inventory) ∧
    ((lotsForType s t).map Lot.id).Nodup ∧
    (∀ x ∈ lotsForType s t, x.type_id = t) := by
  refine ⟨?_, ?_, ?_⟩
  · intro x hx
    rw [lotsForType, List.mem_insertionSort] at hx
    exact List.mem_of_mem_filter hx
  · have hperm : List.Perm ((lotsForType s t).map Lot.id)
        ((s.inventory.filter (fun l => l.type_id = t)).map Lot.id) :=
      (List.perm_insertionSort lotLe _).map Lot.id
    refine hperm.nodup_iff.mpr ?_
    exact ((List.filter_sublist _).map Lot.id).nodup hwf.1
  · intro x hx
    rw [lotsForType, List.mem_insertionSort] at hx
    simpa using (List.mem_filter.mp hx).2

theorem mkFallbackRecord_source (sr tr : ℚ) (o : HistOrder) (rem : Int) :
    (mkFallbackRecord sr tr o rem).purchase_order_id = none := rfl

theorem processOrder_qty (br sr tr : ℚ) (acc : RunAcc) (o : HistOrder)
    (hwf : InvWF acc.st) :
    InvWF (processOrder br sr tr acc o).st ∧
    ∀ t, qtyBal t (processOrder br sr tr acc o) = qtyBal t acc := by
  unfold processOrder
  split
  · rename_i hbuy
    split
    · rename_i hv
      constructor
      · exact InvWF_insertLot hwf o.type_id hv _ _ _ _
      · intro t
        unfold qtyBal
        simp only [emit_st, emit_log, applyW_setExhausted_profits,
          applyW_setExhausted_inventory, applyW_insertLot_profits,
          applyW_insertLot_inventory]
        rw [invQty_append, List.append_assoc, lotAddedQty_append]
        simp only [invQty, lotAddedQty, List.cons_append, List.nil_append]
        split <;> ring
    · constructor
      · exact hwf
      · intro t
        unfold qtyBal
        simp only [emit_st, emit_log, applyW_setExhausted_profits,
          applyW_setExhausted_inventory, lotAddedQty_append]
        simp only [lotAddedQty]
        ring
  · split
    · rename_i hv
      obtain ⟨hm, hn, ht⟩ := lotsForType_spec acc.st o.type_id hwf
      have hcl := consumeLots_qty sr tr o (lotsForType acc.st o.type_id)
        o.volume_effective acc hwf hm hn ht
      dsimp only
      split
      · rename_i hleft
        constructor
        · exact hcl.1
        · intro t
          refine Eq.trans ?_ (hcl.2 t)
          unfold qtyBal
          simp only [emit_st, emit_log, applyW_setExhausted_profits,
            applyW_setExhausted_inventory, applyW_insertProfit_profits,
            applyW_insertProfit_inventory, applyW_insertProfit_nextLotId]
          rw [matchedQty_append, List.append_assoc, lotAddedQty_append]
          simp only [matchedQty, mkFallbackRecord_source, Option.isSome_none,
            Bool.false_eq_true, and_false, ite_false, lotAddedQty,
            List.cons_append, List.nil_append]
          ring
      · constructor
        · exact hcl.1
        · intro t
          refine Eq.trans ?_ (hcl.2 t)
          unfold qtyBal
          simp only [emit_st, emit_log, applyW_setExhausted_profits,
            applyW_setExhausted_inventory, lotAddedQty_append]
          simp only [lotAddedQty]
          ring
    · constructor
      · exact hwf
      · intro t
        unfold qtyBal
        simp only [emit_st, emit_log, applyW_setExhausted_profits,
          applyW_setExhausted_inventory, lotAddedQty_append]
        simp only [lotAddedQty]
        ring

theorem runEngine_qty (br sr tr : ℚ) (s : DBState) (hwf : InvWF s) :
    InvWF (runEngine br sr tr s).st ∧
    ∀ t, qtyBal t (runEngine br sr tr s) = qtyBal t (⟨s, [], Stats.init⟩ : RunAcc) := by
  unfold runEngine
  generalize selectUnexhausted s = l
  have h : ∀ (acc : RunAcc), InvWF acc.st →
      InvWF (l.foldl (processOrder br sr tr) acc).st ∧
      ∀ t, qtyBal t (l.foldl (processOrder br sr tr) acc) = qtyBal t acc := by
    induction l with
    | nil => exact fun acc h => ⟨h, fun _ => rfl⟩
    | cons x xs ih =>
      intro acc hacc
      have hstep := processOrder_qty br sr tr acc x hacc
      have hrest := ih (processOrder br sr tr acc x) hstep.1
      exact ⟨hrest.1, fun t => (hrest.2 t).trans (hstep.2 t)⟩
  exact h _ hwf

/-- C7: no double counting.  Starting from empty inventory and profit
tables, for every `type_id` the total quantity matched out of inventory
lots by a run (profit rows carrying a non-null source-lot order id) never
exceeds the total quantity the run ever inserted into inventory lots. -/
theorem process_character_orders_no_double_count (br sr tr : ℚ) (s : DBState)
    (hinv : s.inventory = []) (hprof : s.profits = []) (t : Nat) :
    matchedQty t (process_character_orders br sr tr s).1.profits ≤
      lotAddedQty t (runEngine br sr tr s).log := by
  have hwf : InvWF s := by
    constructor
    · rw [hinv]; exact List.nodup_nil
    · intro l hl; rw [hinv] at hl; exact absurd hl (List.not_mem_nil l)
  obtain ⟨hwf', hbal⟩ := runEngine_qty br sr tr s hwf
  have h0 : qtyBal t (⟨s, [], Stats.init⟩ : RunAcc) = 0 := by
    unfold qtyBal
    simp [hinv, hprof, matchedQty, invQty, lotAddedQty]
  have hfin := (hbal t).trans h0
  unfold qtyBal at hfin
  have hpos : 0 ≤ invQty t (runEngine br sr tr s).st.inventory :=
    invQty_nonneg t _ (fun l hl => (hwf'.2 l hl).1)
  show matchedQty t (runEngine br sr tr s).st.profits ≤ _
  omega

/-- Witness for C7 at a concrete run: one buy of 10 then one sell of 4. -/
theorem process_character_orders_no_double_count_witness :
    (⟨[⟨1, true, ⟨2024, 1, 1, 0⟩, 10, 3, 10, false⟩,
       ⟨2, false, ⟨2024, 1, 1, 1⟩, 12, 3, 4, false⟩], [], [], 1⟩ : DBState).inventory
        = [] ∧
    (⟨[⟨1, true, ⟨2024, 1, 1, 0⟩, 10, 3, 10, false⟩,
       ⟨2, false, ⟨2024, 1, 1, 1⟩, 12, 3, 4, false⟩], [], [], 1⟩ : DBState).profits
        = [] ∧
    matchedQty 3 (process_character_orders 1 1 1
      ⟨[⟨1, true, ⟨2024, 1, 1, 0⟩, 10, 3, 10, false⟩,
        ⟨2, false, ⟨2024, 1, 1, 1⟩, 12, 3, 4, false⟩], [], [], 1⟩).1.profits ≤
      lotAddedQty 3 (runEngine 1 1 1
        ⟨[⟨1, true, ⟨2024, 1, 1, 0⟩, 10, 3, 10, false⟩,
          ⟨2, false, ⟨2024, 1, 1, 1⟩, 12, 3, 4, false⟩], [], [], 1⟩).log :=
  ⟨rfl, rfl, process_character_orders_no_double_count 1 1 1 _ rfl rfl 3⟩

theorem applyWrites_profits (s : DBState) :
    ∀ ws, (applyWrites s ws).profits = s.profits ++ profitsOf ws
  | [] => by simp [applyWrites, profitsOf]
  | w :: ws => by
    show (applyWrites (applyW s w) ws).profits = _
    rw [applyWrites_profits (applyW s w) ws]
    cases w <;> simp [profitsOf, applyW]

theorem upd_pp (i : Nat) (q : Int) (x : Lot) :
    (if x.id = i then { x with quantity := q } else x).purchase_price =
      x.purchase_price := by
  split <;> rfl

theorem consumeLots_shapeInv (sr tr : ℚ) (o : HistOrder) (ho : Is2dp o.price) :
    ∀ (lots : List Lot) (rem : Int) (acc : RunAcc),
      RunShapeInv sr tr acc →
      (∀ l ∈ lots, Is2dp l.purchase_price) →
      RunShapeInv sr tr (consumeLots sr tr o lots rem acc).1
  | [], _, _ => fun h _ => h
  | l :: rest, rem, acc => by
    intro hinv hlots
    rw [consumeLots]
    split
    · exact hinv
    · dsimp only
      have hstep : ∀ (w2 : Write),
          ((∃ i q, w2 = .updateLotQty i q) ∨ (∃ i, w2 = .deleteLot i)) →
          RunShapeInv sr tr
            ((acc.emit (.insertProfit
              (mkMatchRecord sr tr o l (min rem l.quantity)))).emit w2) := by
        intro w2 hw2
        have hw2ne : ∀ r, w2 ≠ Write.insertProfit r := by
          rcases hw2 with ⟨i, q, rfl⟩ | ⟨i, rfl⟩ <;> intro r h <;> cases h
        constructor
        · intro x hx
          simp only [emit_st] at hx
          rcases hw2 with ⟨i, q, rfl⟩ | ⟨i, rfl⟩
          · simp only [applyW_updateLotQty_inventory,
              applyW_insertProfit_inventory] at hx
            obtain ⟨x0, hx0, rfl⟩ := List.mem_map.mp hx
            rw [upd_pp]
            exact hinv.1 x0 hx0
          · simp only [applyW_deleteLot_inventory,
              applyW_insertProfit_inventory] at hx
            exact hinv.1 x (List.mem_of_mem_filter hx)
        · intro w hw
          simp only [emit_log, List.append_assoc, List.mem_append,
            List.cons_append, List.nil_append, List.mem_cons,
            List.not_mem_nil, or_false] at hw
          rcases hw with hw | rfl | rfl
          · exact hinv.2 w hw
          · refine ⟨?_, ?_⟩
            · intro r hr
              cases hr
              exact Or.inl ⟨o, l, min rem l.quantity, ho,
                hlots l (List.mem_cons_self l rest), rfl⟩
            · intro t q pp poid pd fee hr
              cases hr
          · refine ⟨?_, ?_⟩
            · intro r hr
              exact absurd hr (hw2ne r)
            · intro t q pp poid pd fee hr
              rcases hw2 with ⟨i, qq, rfl⟩ | ⟨i, rfl⟩ <;> cases hr
      split
      · refine consumeLots_shapeInv sr tr o ho rest _ _ ?_
          (fun x hx => hlots x (List.mem_cons_of_mem l hx))
        exact hstep _ (Or.inl ⟨l.id, l.quantity - min rem l.quantity, rfl⟩)
      · refine consumeLots_shapeInv sr tr o ho rest _ _ ?_
          (fun x hx => hlots x (List.mem_cons_of_mem l hx))
        exact hstep _ (Or.inr ⟨l.id, rfl⟩)

theorem processOrder_shapeInv (br sr tr : ℚ) (acc : RunAcc) (o : HistOrder)
    (ho : Is2dp o.price) (hinv : RunShapeInv sr tr acc) :
    RunShapeInv sr tr (processOrder br sr tr acc o) := by
  have hsetEx : ∀ (acc' : RunAcc), RunShapeInv sr tr acc' →
      RunShapeInv sr tr (acc'.emit (.setExhausted o.order_id)) := by
    intro acc' h
    constructor
    · intro x hx
      simp only [emit_st, applyW_setExhausted_inventory] at hx
      exact h.1 x hx
    · intro w hw
      simp only [emit_log, List.mem_append, List.mem_singleton] at hw
      rcases hw with hw | rfl
      · exact h.2 w hw
      · exact ⟨fun r hr => (by cases hr), fun t q pp poid pd fee hr => (by cases hr)⟩
  unfold processOrder
  split
  · split
    · refine hsetEx _ ?_
      constructor
      · intro x hx
        simp only [emit_st, applyW_insertLot_inventory] at hx
        rcases List.mem_append.mp hx with hx | hx
        · exact hinv.1 x hx
        · rcases List.mem_singleton.mp hx with rfl
          exact round2_is2dp _
      · intro w hw
        simp only [emit_log, List.mem_append, List.mem_singleton] at hw
        rcases hw with hw | rfl
        · exact hinv.2 w hw
        · refine ⟨fun r hr => (by cases hr), ?_⟩
          intro t q pp poid pd fee hr
          cases hr
          exact ⟨⟨o.price, rfl⟩,
            ⟨o.price * (o.volume_effective : ℚ) * (br / 100), rfl⟩⟩
    · exact hsetEx _ hinv
  · split
    · have hcl := consumeLots_shapeInv sr tr o ho
        (lotsForType acc.st o.type_id) o.volume_effective acc hinv
        (fun x hx => hinv.1 x
          (by
            rw [lotsForType, List.mem_insertionSort] at hx
            exact List.mem_of_mem_filter hx))
      dsimp only
      split
      · refine hsetEx _ ?_
        constructor
        · intro x hx
          simp only [emit_st, applyW_insertProfit_inventory] at hx
          exact hcl.1 x hx
        · intro w hw
          simp only [emit_log, List.mem_append, List.mem_singleton] at hw
          rcases hw with hw | rfl
          · exact hcl.2 w hw
          · refine ⟨?_, fun t q pp poid pd fee hr => (by cases hr)⟩
            intro r hr
            cases hr
            exact Or.inr ⟨o, _, ho, rfl⟩
      · exact hsetEx _ hcl
    · exact hsetEx _ hinv

theorem runEngine_shapeInv (br sr tr : ℚ) (s : DBState)
    (hh : ∀ o ∈ s.history, Is2dp o.price)
    (hi : ∀ l ∈ s.inventory, Is2dp l.purchase_price) :
    RunShapeInv sr tr (runEngine br sr tr s) := by
  unfold runEngine
  have hsel : ∀ o ∈ selectUnexhausted s, Is2dp o.price := by
    intro o ho
    rw [selectUnexhausted, List.mem_insertionSort] at ho
    exact hh o (List.mem_of_mem_filter ho)
  revert hsel
  generalize selectUnexhausted s = l
  intro hsel
  have h : ∀ (acc : RunAcc), RunShapeInv sr tr acc →
      RunShapeInv sr tr (l.foldl (processOrder br sr tr) acc) := by
    induction l with
    | nil => exact fun acc h => h
    | cons x xs ih =>
      intro acc hacc
      exact ih (fun o ho => hsel o (List.mem_cons_of_mem x ho)) _
        (processOrder_shapeInv br sr tr acc x
          (hsel x (List.mem_cons_self x xs)) hacc)
  exact h _ ⟨hi, fun w hw => absurd hw (List.not_mem_nil w)⟩

theorem Is2dp.mul_int {x : ℚ} (hx : Is2dp x) (q : ℤ) : Is2dp (x * (q : ℚ)) := by
  rw [mul_comm]
  exact hx.int_mul q

theorem mkMatchRecord_formulas (sr tr : ℚ) (o : HistOrder) (l : Lot)
    (qty : Int) (ho : Is2dp o.price) (hl : Is2dp l.purchase_price) :
    (mkMatchRecord sr tr o l qty).gross_profit =
      ((mkMatchRecord sr tr o l qty).quantity : ℚ) *
          (mkMatchRecord sr tr o l qty).sell_price -
        ((mkMatchRecord sr tr o l qty).quantity : ℚ) *
          (mkMatchRecord sr tr o l qty).purchase_price ∧
    (mkMatchRecord sr tr o l qty).broker_fee_buy =
      round2 (l.broker_fee_buy * ((qty : ℚ) / (l.quantity : ℚ))) ∧
    (mkMatchRecord sr tr o l qty).broker_fee_sell =
      round2 (o.price * (qty : ℚ) * (sr / 100)) ∧
    (mkMatchRecord sr tr o l qty).sales_tax =
      round2 (o.price * (qty : ℚ) * (tr / 100)) ∧
    (mkMatchRecord sr tr o l qty).net_profit =
      round2 ((mkMatchRecord sr tr o l qty).gross_profit -
        l.broker_fee_buy * ((qty : ℚ) / (l.quantity : ℚ)) -
        o.price * (qty : ℚ) * (sr / 100) - o.price * (qty : ℚ) * (tr / 100)) := by
  have hsell : (mkMatchRecord sr tr o l qty).sell_price = o.price :=
    round2_eq_self ho
  have hpp : (mkMatchRecord sr tr o l qty).purchase_price = l.purchase_price :=
    round2_eq_self hl
  have hgross2dp : Is2dp (o.price * (qty : ℚ) - l.purchase_price * (qty : ℚ)) :=
    (ho.mul_int qty).sub (hl.mul_int qty)
  have hgross : (mkMatchRecord sr tr o l qty).gross_profit =
      o.price * (qty : ℚ) - l.purchase_price * (qty : ℚ) :=
    round2_eq_self hgross2dp
  refine ⟨?_, rfl, rfl, rfl, ?_⟩
  · rw [hgross, hsell, hpp, mkMatchRecord_quantity]
    ring
  · rw [hgross]
    show round2 ((o.price * (qty : ℚ) -
        ((o.price * (qty : ℚ)) * (sr / 100)) -
        ((o.price * (qty : ℚ)) * (tr / 100))) -
      (l.purchase_price * (qty : ℚ) +
        l.broker_fee_buy * ((qty : ℚ) / (l.quantity : ℚ)))) = _
    congr 1
    ring

/-- C2 (amended): for every profit row a run inserts, if the row matched an
inventory lot (non-null source-lot order id) then the stored gross profit
equals `quantity*sell_price - quantity*purchase_price` exactly, while the
stored net profit is the 2-decimal rounding of gross profit minus the
*unrounded* fee amounts whose individual 2-decimal roundings are the stored
buy-fee share, sell fee and tax columns; a fallback row (null source lot)
stores `purchase_price = 0`, `gross_profit = 0` and `net_profit = 0`. -/
theorem process_character_orders_profit_identity (br sr tr : ℚ) (s : DBState)
    (hh : ∀ o ∈ s.history, Is2dp o.price)
    (hi : ∀ l ∈ s.inventory, Is2dp l.purchase_price) :
    ∀ r ∈ (process_character_orders br sr tr s).1.profits, r ∉ s.profits →
      (r.purchase_order_id.isSome = true →
        r.gross_profit = (r.quantity : ℚ) * r.sell_price -
          (r.quantity : ℚ) * r.purchase_price ∧
        ∃ buyShare sellFee tax : ℚ,
          r.broker_fee_buy = round2 buyShare ∧
          r.broker_fee_sell = round2 sellFee ∧
          r.sales_tax = round2 tax ∧
          r.net_profit = round2 (r.gross_profit - buyShare - sellFee - tax)) ∧
      (r.purchase_order_id = none →
        r.purchase_price = 0 ∧ r.gross_profit = 0 ∧ r.net_profit = 0) := by
  intro r hr hnew
  have hco := runEngine_coherent br sr tr s
  have hr' : r ∈ (runEngine br sr tr s).st.profits := hr
  rw [hco, applyWrites_profits] at hr'
  rcases List.mem_append.mp hr' with hold | hlog
  · exact absurd hold hnew
  · obtain ⟨w, hw, hwr⟩ := List.mem_filterMap.mp hlog
    have hshape := (runEngine_shapeInv br sr tr s hh hi).2 w hw
    have hwi : w = .insertProfit r := by
      cases w <;> simp_all
    rcases hshape.1 r hwi with ⟨o, l, qty, ho2, hl2, rfl⟩ | ⟨o, rem, ho2, rfl⟩
    · obtain ⟨hg, hb, hs, ht, hn⟩ := mkMatchRecord_formulas sr tr o l qty ho2 hl2
      constructor
      · intro _
        exact ⟨hg, l.broker_fee_buy * ((qty : ℚ) / (l.quantity : ℚ)),
          o.price * (qty : ℚ) * (sr / 100), o.price * (qty : ℚ) * (tr / 100),
          hb, hs, ht, hn⟩
      · intro hnone
        exact absurd hnone (by rw [mkMatchRecord_source]; simp)
    · constructor
      · intro hsome
        exact absurd hsome (by rw [mkFallbackRecord_source]; simp)
      · intro _
        exact ⟨rfl, rfl, rfl⟩

/-! ### C9: every stored monetary amount is a 2-decimal value -/

/-- C9: every monetary amount the engine persists — an inventory lot's
purchase price and acquisition fee, and a profit row's purchase price, sell
price, buy-fee share, sell fee, tax, gross profit and net profit — is the
two-decimal rounding applied by its `DECIMAL(20,2)` column, while the
Python-side intermediate arithmetic that produced it is carried exactly. -/
theorem process_character_orders_stores_rounded (br sr tr : ℚ) (s : DBState)
    (hh : ∀ o ∈ s.history, Is2dp o.price)
    (hi : ∀ l ∈ s.inventory, Is2dp l.purchase_price) :
    ∀ w ∈ (runEngine br sr tr s).log,
      (∀ t q pp poid pd fee, w = .insertLot t q pp poid pd fee →
        Is2dp pp ∧ Is2dp fee) ∧
      (∀ r, w = .insertProfit r →
        Is2dp r.purchase_price ∧ Is2dp r.sell_price ∧
        Is2dp r.broker_fee_buy ∧ Is2dp r.broker_fee_sell ∧
        Is2dp r.sales_tax ∧ Is2dp r.gross_profit ∧ Is2dp r.net_profit) := by
  intro w hw
  have hshape := (runEngine_shapeInv br sr tr s hh hi).2 w hw
  constructor
  · intro t q pp poid pd fee hwl
    obtain ⟨⟨x, hx⟩, ⟨y, hy⟩⟩ := hshape.2 t q pp poid pd fee hwl
    exact ⟨hx ▸ round2_is2dp x, hy ▸ round2_is2dp y⟩
  · intro r hwr
    rcases hshape.1 r hwr with ⟨o, l, qty, _, _, rfl⟩ | ⟨o, rem, _, rfl⟩
    · exact ⟨round2_is2dp _, round2_is2dp _, round2_is2dp _, round2_is2dp _,
        round2_is2dp _, round2_is2dp _, round2_is2dp _⟩
    · exact ⟨⟨0, by norm_num [mkFallbackRecord]⟩, round2_is2dp _,
        ⟨0, by norm_num [mkFallbackRecord]⟩, round2_is2dp _, round2_is2dp _,
        ⟨0, by norm_num [mkFallbackRecord]⟩, ⟨0, by norm_num [mkFallbackRecord]⟩⟩

/-- Witness for C9 at a concrete run: one buy and one sell. -/
theorem process_character_orders_stores_rounded_witness :
    (∀ o ∈ (⟨[⟨1, true, ⟨2024, 1, 1, 0⟩, 10, 3, 10, false⟩,
        ⟨2, false, ⟨2024, 1, 1, 1⟩, 12, 3, 4, false⟩], [], [], 1⟩ : DBState).history,
      Is2dp o.price) ∧
    (∀ l ∈ (⟨[⟨1, true, ⟨2024, 1, 1, 0⟩, 10, 3, 10, false⟩,
        ⟨2, false, ⟨2024, 1, 1, 1⟩, 12, 3, 4, false⟩], [], [], 1⟩ : DBState).inventory,
      Is2dp l.purchase_price) ∧
    ∀ w ∈ (runEngine 1 1 1
        ⟨[⟨1, true, ⟨2024, 1, 1, 0⟩, 10, 3, 10, false⟩,
          ⟨2, false, ⟨2024, 1, 1, 1⟩, 12, 3, 4, false⟩], [], [], 1⟩).log,
      (∀ t q pp poid pd fee, w = .insertLot t q pp poid pd fee →
        Is2dp pp ∧ Is2dp fee) ∧
      (∀ r, w = .insertProfit r →
        Is2dp r.purchase_price ∧ Is2dp r.sell_price ∧
        Is2dp r.broker_fee_buy ∧ Is2dp r.broker_fee_sell ∧
        Is2dp r.sales_tax ∧ Is2dp r.gross_profit ∧ Is2dp r.net_profit) := by
  have hh : ∀ o ∈ (⟨[⟨1, true, ⟨2024, 1, 1, 0⟩, 10, 3, 10, false⟩,
      ⟨2, false, ⟨2024, 1, 1, 1⟩, 12, 3, 4, false⟩], [], [], 1⟩ : DBState).history,
      Is2dp o.price := by
    intro o ho
    simp only [List.mem_cons, List.not_mem_nil, or_false] at ho
    rcases ho with rfl | rfl
    · exact ⟨1000, by norm_num⟩
    · exact ⟨1200, by norm_num⟩
  have hi : ∀ l ∈ (⟨[⟨1, true, ⟨2024, 1, 1, 0⟩, 10, 3, 10, false⟩,
      ⟨2, false, ⟨2024, 1, 1, 1⟩, 12, 3, 4, false⟩], [], [], 1⟩ : DBState).inventory,
      Is2dp l.purchase_price := by
    intro l hl
    exact absurd hl (List.not_mem_nil l)
  exact ⟨hh, hi, process_character_orders_stores_rounded 1 1 1 _ hh hi⟩

/-! ### C3: the sold-without-purchase fallback branch -/

theorem profitsOf_append (a b : List Write) :
    profitsOf (a ++ b) = profitsOf a ++ profitsOf b :=
  List.filterMap_append a b _

/-- When a sell has more units left than the whole fetched snapshot holds,
the inner loop consumes every lot in full (emitting one lot-match profit
row per lot and deleting each lot) and returns the shortfall. -/
theorem consumeLots_shortfall (sr tr : ℚ) (o : HistOrder) :
    ∀ (lots : List Lot) (rem : Int) (acc : RunAcc),
      (∀ l ∈ lots, 0 < l.quantity) →
      (lots.map Lot.quantity).sum < rem →
      (consumeLots sr tr o lots rem acc).2 =
        rem - (lots.map Lot.quantity).sum ∧
      profitsOf (consumeLots sr tr o lots rem acc).1.log =
        profitsOf acc.log ++
          lots.map (fun l => mkMatchRecord sr tr o l l.quantity)
  | [], rem, acc => by
    intro _ _
    refine ⟨by simp [consumeLots], by simp [consumeLots]⟩
  | l :: rest, rem, acc => by
    intro hpos hlt
    have hl : 0 < l.quantity := hpos l (List.mem_cons_self l rest)
    have hrest0 : 0 ≤ (rest.map Lot.quantity).sum :=
      List.sum_nonneg (by
        intro x hx
        obtain ⟨y, hy, rfl⟩ := List.mem_map.mp hx
        exact le_of_lt (hpos y (List.mem_cons_of_mem l hy)))
    have hsum : l.quantity + (rest.map Lot.quantity).sum < rem := by
      simpa using hlt
    have hrem : ¬ rem ≤ 0 := by omega
    have hqty : min rem l.quantity = l.quantity :=
      min_eq_right (by omega)
    rw [consumeLots, if_neg hrem]
    dsimp only
    rw [hqty]
    have hnq : ¬ (l.quantity - l.quantity > 0) := by omega
    rw [if_neg hnq]
    have hposrest : ∀ x ∈ rest, 0 < x.quantity :=
      fun x hx => hpos x (List.mem_cons_of_mem l hx)
    have hltrest : (rest.map Lot.quantity).sum < rem - l.quantity := by omega
    constructor
    · refine Eq.trans
        (consumeLots_shortfall sr tr o rest (rem - l.quantity) _
          hposrest hltrest).1 ?_
      simp only [List.map_cons, List.sum_cons]
      ring
    · refine Eq.trans
        (consumeLots_shortfall sr tr o rest (rem - l.quantity) _
          hposrest hltrest).2 ?_
      simp [profitsOf, List.filterMap_append, List.filterMap_cons,
        List.append_assoc]

/-- C3 (amended): a sell order whose effective volume exceeds the total
inventory available for its `type_id` — the empty-inventory case included —
is handled by the explicit fallback branch: the run consumes every lot of
that type in full (one lot-match profit row per lot) and then inserts
exactly one terminal profit row for the leftover quantity, with
`purchase_price = 0`, zero buy fee, a `NULL` source-lot order id, the sell
fee and tax computed on the leftover revenue, and `gross_profit = 0` and
`net_profit = 0` (the code stores literal zero net profit, not
`-(fee+tax)`), and never raises an error. -/
theorem processOrder_leftover_fallback (br sr tr : ℚ) (acc : RunAcc)
    (o : HistOrder) (hsell : o.is_buy_order = false)
    (hpos : ∀ l ∈ lotsForType acc.st o.type_id, 0 < l.quantity)
    (hshort : ((lotsForType acc.st o.type_id).map Lot.quantity).sum <
      o.volume_effective) :
    0 < o.volume_effective -
      ((lotsForType acc.st o.type_id).map Lot.quantity).sum ∧
    profitsOf (processOrder br sr tr acc o).log =
      profitsOf acc.log ++
        (lotsForType acc.st o.type_id).map
          (fun l => mkMatchRecord sr tr o l l.quantity) ++
        [mkFallbackRecord sr tr o (o.volume_effective -
          ((lotsForType acc.st o.type_id).map Lot.quantity).sum)] ∧
    (profitsOf (processOrder br sr tr acc o).log).filter
        (fun r => r.purchase_order_id = none) =
      (profitsOf acc.log).filter (fun r => r.purchase_order_id = none) ++
        [mkFallbackRecord sr tr o (o.volume_effective -
          ((lotsForType acc.st o.type_id).map Lot.quantity).sum)] ∧
    (mkFallbackRecord sr tr o (o.volume_effective -
      ((lotsForType acc.st o.type_id).map Lot.quantity).sum)).purchase_price
        = 0 ∧
    (mkFallbackRecord sr tr o (o.volume_effective -
      ((lotsForType acc.st o.type_id).map Lot.quantity).sum)).broker_fee_buy
        = 0 ∧
    (mkFallbackRecord sr tr o (o.volume_effective -
      ((lotsForType acc.st o.type_id).map Lot.quantity).sum)).gross_profit
        = 0 ∧
    (mkFallbackRecord sr tr o (o.volume_effective -
      ((lotsForType acc.st o.type_id).map Lot.quantity).sum)).net_profit
        = 0 ∧
    (mkFallbackRecord sr tr o (o.volume_effective -
      ((lotsForType acc.st o.type_id).map Lot.quantity).sum)).purchase_order_id
        = none ∧
    (mkFallbackRecord sr tr o (o.volume_effective -
      ((lotsForType acc.st o.type_id).map Lot.quantity).sum)).quantity =
      o.volume_effective -
        ((lotsForType acc.st o.type_id).map Lot.quantity).sum ∧
    (mkFallbackRecord sr tr o (o.volume_effective -
      ((lotsForType acc.st o.type_id).map Lot.quantity).sum)).broker_fee_sell =
      round2 (o.price * ((o.volume_effective -
        ((lotsForType acc.st o.type_id).map Lot.quantity).sum : Int) : ℚ) *
        (sr / 100)) ∧
    (mkFallbackRecord sr tr o (o.volume_effective -
      ((lotsForType acc.st o.type_id).map Lot.quantity).sum)).sales_tax =
      round2 (o.price * ((o.volume_effective -
        ((lotsForType acc.st o.type_id).map Lot.quantity).sum : Int) : ℚ) *
        (tr / 100)) := by
  have hsum0 : 0 ≤ ((lotsForType acc.st o.type_id).map Lot.quantity).sum :=
    List.sum_nonneg (by
      intro x hx
      obtain ⟨y, hy, rfl⟩ := List.mem_map.mp hx
      exact le_of_lt (hpos y hy))
  have hvol : o.volume_effective > 0 := lt_of_le_of_lt hsum0 hshort
  have hleft : 0 < o.volume_effective -
      ((lotsForType acc.st o.type_id).map Lot.quantity).sum := by omega
  obtain ⟨hrem2, hprof⟩ := consumeLots_shortfall sr tr o
    (lotsForType acc.st o.type_id) o.volume_effective acc hpos hshort
  have hmatchfilter : ((lotsForType acc.st o.type_id).map
      (fun l => mkMatchRecord sr tr o l l.quantity)).filter
      (fun r => r.purchase_order_id = none) = [] := by
    rw [List.filter_eq_nil_iff]
    intro r hr
    obtain ⟨l, _, rfl⟩ := List.mem_map.mp hr
    rw [mkMatchRecord_source]
    simp
  have hlog : profitsOf (processOrder br sr tr acc o).log =
      profitsOf acc.log ++
        (lotsForType acc.st o.type_id).map
          (fun l => mkMatchRecord sr tr o l l.quantity) ++
        [mkFallbackRecord sr tr o (o.volume_effective -
          ((lotsForType acc.st o.type_id).map Lot.quantity).sum)] := by
    unfold processOrder
    rw [hsell]
    simp only [Bool.false_eq_true, if_false, if_pos hvol]
    rw [hrem2, if_pos hleft]
    simp only [emit_log, List.append_assoc]
    rw [profitsOf_append, hprof]
    simp [profitsOf]
  refine ⟨hleft, hlog, ?_, rfl, rfl, rfl, rfl, rfl, rfl, rfl, rfl⟩
  rw [hlog]
  simp only [List.filter_append, hmatchfilter, List.append_nil]
  congr 1

/-- Witness for C3 at a partial-consumption instance: a 2-unit lot of
type 7, then sell(5@50); the lot is consumed in full and the leftover of 3
gets the single fallback row. -/
theorem processOrder_leftover_fallback_witness :
    ((⟨10, false, ⟨2024, 1, 2, 0⟩, 50, 7, 5, false⟩ : HistOrder).is_buy_order
        = false) ∧
    (∀ l ∈ lotsForType
        (⟨[], [⟨1, 7, 2, 10, 99, ⟨2024, 1, 1, 0⟩, 3/5⟩], [], 2⟩ : DBState) 7,
      0 < l.quantity) ∧
    (((lotsForType
        (⟨[], [⟨1, 7, 2, 10, 99, ⟨2024, 1, 1, 0⟩, 3/5⟩], [], 2⟩ : DBState)
        7).map Lot.quantity).sum < 5) ∧
    (0 < (5 : Int) - ((lotsForType
        (⟨[], [⟨1, 7, 2, 10, 99, ⟨2024, 1, 1, 0⟩, 3/5⟩], [], 2⟩ : DBState)
        7).map Lot.quantity).sum) ∧
    profitsOf (processOrder 3 3 (15/2)
        ⟨⟨[], [⟨1, 7, 2, 10, 99, ⟨2024, 1, 1, 0⟩, 3/5⟩], [], 2⟩, [],
          Stats.init⟩
        ⟨10, false, ⟨2024, 1, 2, 0⟩, 50, 7, 5, false⟩).log =
      profitsOf ([] : List Write) ++
        (lotsForType
          (⟨[], [⟨1, 7, 2, 10, 99, ⟨2024, 1, 1, 0⟩, 3/5⟩], [], 2⟩ : DBState)
          7).map (fun l => mkMatchRecord 3 (15/2)
            ⟨10, false, ⟨2024, 1, 2, 0⟩, 50, 7, 5, false⟩ l l.quantity) ++
        [mkFallbackRecord 3 (15/2)
          ⟨10, false, ⟨2024, 1, 2, 0⟩, 50, 7, 5, false⟩
          (5 - ((lotsForType
            (⟨[], [⟨1, 7, 2, 10, 99, ⟨2024, 1, 1, 0⟩, 3/5⟩], [], 2⟩ : DBState)
            7).map Lot.quantity).sum)] := by
  have hpos : ∀ l ∈ lotsForType
      (⟨[], [⟨1, 7, 2, 10, 99, ⟨2024, 1, 1, 0⟩, 3/5⟩], [], 2⟩ : DBState) 7,
      0 < l.quantity := by
    intro l hl
    have hls : lotsForType
        (⟨[], [⟨1, 7, 2, 10, 99, ⟨2024, 1, 1, 0⟩, 3/5⟩], [], 2⟩ : DBState) 7 =
        [⟨1, 7, 2, 10, 99, ⟨2024, 1, 1, 0⟩, 3/5⟩] := rfl
    rw [hls, List.mem_singleton] at hl
    rw [hl]
    norm_num
  have hshort : ((lotsForType
      (⟨[], [⟨1, 7, 2, 10, 99, ⟨2024, 1, 1, 0⟩, 3/5⟩], [], 2⟩ : DBState)
      7).map Lot.quantity).sum < 5 := by
    have hls : lotsForType
        (⟨[], [⟨1, 7, 2, 10, 99, ⟨2024, 1, 1, 0⟩, 3/5⟩], [], 2⟩ : DBState) 7 =
        [⟨1, 7, 2, 10, 99, ⟨2024, 1, 1, 0⟩, 3/5⟩] := rfl
    rw [hls]
    norm_num
  have h := processOrder_leftover_fallback 3 3 (15/2)
    ⟨⟨[], [⟨1, 7, 2, 10, 99, ⟨2024, 1, 1, 0⟩, 3/5⟩], [], 2⟩, [], Stats.init⟩
    ⟨10, false, ⟨2024, 1, 2, 0⟩, 50, 7, 5, false⟩ rfl hpos hshort
  exact ⟨rfl, hpos, hshort, h.1, h.2.1⟩

/-- Counterexample to C3 as stated: the fallback row for sell(5@50) at a 3%
disposal fee and 7.5% tax stores `net_profit = 0`, not
`-(disposal_fee + tax) = -26.25`. -/
theorem process_character_orders_fallback_net_cex :
    ∃ r : ProfitRec,
      (process_character_orders 3 3 (15/2)
        ⟨[⟨21, false, ⟨2024, 1, 1, 0⟩, 50, 7, 5, false⟩], [], [],
          1⟩).1.profits = [r] ∧
      r.purchase_price = 0 ∧ r.purchase_order_id = none ∧
      r.broker_fee_sell = 15/2 ∧ r.sales_tax = 75/4 ∧ r.net_profit = 0 ∧
      r.net_profit ≠ -(r.broker_fee_sell + r.sales_tax) := by
  refine ⟨⟨7, 21, ⟨2024, 1, 1, 0⟩, 5, 0, 50, 0, 15/2, 75/4, 0, 0, none⟩,
    ?_, rfl, rfl, rfl, rfl, rfl, by norm_num⟩
  norm_num [process_character_orders, runEngine, selectUnexhausted,
    processOrder, consumeLots, lotsForType, RunAcc.emit, applyW,
    mkMatchRecord, mkFallbackRecord, round2, mysqlRound, Stats.init,
    List.insertionSort, List.orderedInsert, issuedLe, lotLe, DateTime.le,
    List.foldl, List.filter]

/-- Counterexample to C2 as stated: in one run, the lot-matched row for
sell(1@1.83) against a 3-unit lot bought at 1.80 (all rates 3%) stores
`net_profit = -0.13` while `gross - fees - tax` over the stored columns is
`-0.12`; and the fallback row for sell(5@50) on an untracked type stores
`gross_profit = 0 ≠ 250 = quantity*sell_price - quantity*purchase_price`
and `net_profit = 0 ≠ gross - fees - tax = -15`. -/
theorem process_character_orders_profit_identity_cex :
    ∃ r1 r2 : ProfitRec,
      (process_character_orders 3 3 3
        ⟨[⟨11, true, ⟨2024, 1, 1, 0⟩, 9/5, 1, 3, false⟩,
          ⟨12, false, ⟨2024, 1, 1, 1⟩, 183/100, 1, 1, false⟩,
          ⟨13, false, ⟨2024, 1, 1, 2⟩, 50, 2, 5, false⟩], [], [],
          1⟩).1.profits = [r1, r2] ∧
      r1.purchase_order_id = some 11 ∧
      r1.net_profit ≠
        r1.gross_profit - r1.broker_fee_buy - r1.broker_fee_sell -
          r1.sales_tax ∧
      r2.purchase_order_id = none ∧
      r2.gross_profit ≠
        (r2.quantity : ℚ) * r2.sell_price -
          (r2.quantity : ℚ) * r2.purchase_price ∧
      r2.net_profit ≠
        r2.gross_profit - r2.broker_fee_buy - r2.broker_fee_sell -
          r2.sales_tax := by
  refine ⟨⟨1, 12, ⟨2024, 1, 1, 1⟩, 1, 9/5, 183/100, 1/20, 1/20, 1/20,
      3/100, -13/100, some 11⟩,
    ⟨2, 13, ⟨2024, 1, 1, 2⟩, 5, 0, 50, 0, 15/2, 15/2, 0, 0, none⟩,
    ?_, rfl, by norm_num, rfl, by norm_num, by norm_num⟩
  norm_num [process_character_orders, runEngine, selectUnexhausted,
    processOrder, consumeLots, lotsForType, RunAcc.emit, applyW,
    mkMatchRecord, mkFallbackRecord, round2, mysqlRound, Stats.init,
    List.insertionSort, List.orderedInsert, issuedLe, lotLe, DateTime.le,
    List.foldl, List.filter]

/-! ### C10: buy-fee over-allocation on partial lot consumption -/

/-- C10: partial consumption decrements a lot's quantity but not its stored
acquisition fee, and each share is `fee * qty/quantity-remaining`; so for a
10-unit lot with stored fee 30 consumed by two sells of 5, the shares are
`30*(5/10) = 15` and `30*(5/5) = 30`, summing to 45 — strictly more than
the lot's original fee of 30. -/
theorem process_character_orders_fee_overallocation :
    (runEngine 3 3 (15/2)
      ⟨[⟨101, true, ⟨2024, 1, 1, 0⟩, 100, 1, 10, false⟩,
        ⟨102, false, ⟨2024, 1, 1, 1⟩, 200, 1, 5, false⟩,
        ⟨103, false, ⟨2024, 1, 1, 2⟩, 200, 1, 5, false⟩], [], [],
        1⟩).log[0]? =
      some (.insertLot 1 10 100 101 ⟨2024, 1, 1, 0⟩ 30) ∧
    (((process_character_orders 3 3 (15/2)
      ⟨[⟨101, true, ⟨2024, 1, 1, 0⟩, 100, 1, 10, false⟩,
        ⟨102, false, ⟨2024, 1, 1, 1⟩, 200, 1, 5, false⟩,
        ⟨103, false, ⟨2024, 1, 1, 2⟩, 200, 1, 5, false⟩], [], [],
        1⟩).1.profits.filter
      (fun r => r.purchase_order_id = some 101)).map
        ProfitRec.broker_fee_buy).sum = 45 ∧
    (45 : ℚ) > 30 := by
  refine ⟨?_, ?_, by norm_num⟩ <;>
    norm_num [process_character_orders, runEngine, selectUnexhausted,
      processOrder, consumeLots, lotsForType, RunAcc.emit, applyW,
      mkMatchRecord, mkFallbackRecord, round2, mysqlRound, Stats.init,
      List.insertionSort, List.orderedInsert, issuedLe, lotLe, DateTime.le,
      List.foldl, List.filter]

/-! ### C8: month totals versus summed day totals -/

theorem sum_map_filter_split (p : ProfitRec → Bool) (g : ProfitRec → ℚ) :
    ∀ (l : List ProfitRec),
      ((l.filter p).map g).sum + ((l.filter (fun x => !p x)).map g).sum =
        (l.map g).sum
  | [] => by simp
  | x :: xs => by
    by_cases hx : p x = true <;>
      simp only [List.filter_cons, hx, Bool.not_true, Bool.not_false,
        ite_true, ite_false, List.map_cons, List.sum_cons, Bool.false_eq_true,
        if_false, if_true] <;>
      rw [← sum_map_filter_split p g xs] <;> ring

theorem sum_fibers {K : Type} [DecidableEq K] (key : ProfitRec → K)
    (g : ProfitRec → ℚ) :
    ∀ (keys : List K) (l : List ProfitRec), keys.Nodup →
      (∀ x ∈ l, key x ∈ keys) →
      (keys.map (fun k => ((l.filter (fun x => key x = k)).map g).sum)).sum =
        (l.map g).sum
  | [], l, _, hcov => by
    have : l = [] := List.eq_nil_iff_forall_not_mem.mpr
      (fun x hx => by simpa using hcov x hx)
    simp [this]
  | k :: ks, l, hnd, hcov => by
    have hknotin : k ∉ ks := (List.nodup_cons.mp hnd).1
    have hfib : ∀ k' ∈ ks,
        (l.filter (fun x => !(decide (key x = k)))).filter
          (fun x => key x = k') = l.filter (fun x => key x = k') := by
      intro k' hk'
      have hk'k : ¬ k' = k := fun h => hknotin (h ▸ hk')
      rw [List.filter_filter]
      apply List.filter_congr
      intro x _
      by_cases hxk' : key x = k'
      · simp [hxk', hk'k]
      · simp [hxk']
    have hrec := sum_fibers key g ks
      (l.filter (fun x => !(decide (key x = k))))
      (List.nodup_cons.mp hnd).2
      (by
        intro x hx
        rcases List.mem_filter.mp hx with ⟨hxl, hxk⟩
        rcases List.mem_cons.mp (hcov x hxl) with h | h
        · exact absurd h (by simpa using hxk)
        · exact h)
    rw [List.map_cons, List.sum_cons]
    calc ((l.filter (fun x => key x = k)).map g).sum +
          (ks.map (fun k' =>
            ((l.filter (fun x => key x = k')).map g).sum)).sum
        = ((l.filter (fun x => key x = k)).map g).sum +
          (ks.map (fun k' =>
            (((l.filter (fun x => !(decide (key x = k)))).filter
              (fun x => key x = k')).map g).sum)).sum := by
          congr 1
          refine congrArg List.sum (List.map_congr_left ?_).symm
          intro k' hk'
          rw [hfib k' hk']
      _ = ((l.filter (fun x => key x = k)).map g).sum +
          ((l.filter (fun x => !(decide (key x = k)))).map g).sum := by
          rw [hrec]
      _ = (l.map g).sum := by
          have := sum_map_filter_split (fun x => decide (key x = k)) g l
          simpa using this

theorem distinct_split (p : ProfitRec → Bool) (f : ProfitRec → Nat)
    (l : List ProfitRec)
    (hdisj : ∀ x ∈ l, ∀ y ∈ l, f x = f y → p x = p y) :
    distinctCount (l.map f) =
      distinctCount ((l.filter p).map f) +
        distinctCount ((l.filter (fun x => !p x)).map f) := by
  have hcard : ∀ m : List Nat, distinctCount m = m.toFinset.card := by
    intro m
    rw [List.card_toFinset]
    rfl
  have hunion : (l.map f).toFinset =
      ((l.filter p).map f).toFinset ∪
        ((l.filter (fun x => !p x)).map f).toFinset := by
    ext a
    simp only [List.mem_toFinset, Finset.mem_union, List.mem_map,
      List.mem_filter]
    constructor
    · rintro ⟨x, hx, rfl⟩
      by_cases hpx : p x = true
      · exact Or.inl ⟨x, ⟨hx, hpx⟩, rfl⟩
      · exact Or.inr ⟨x, ⟨hx, by simpa using hpx⟩, rfl⟩
    · rintro (⟨x, ⟨hx, _⟩, rfl⟩ | ⟨x, ⟨hx, _⟩, rfl⟩) <;> exact ⟨x, hx, rfl⟩
  have hdis : Disjoint ((l.filter p).map f).toFinset
      ((l.filter (fun x => !p x)).map f).toFinset := by
    rw [Finset.disjoint_left]
    intro a ha hb
    simp only [List.mem_toFinset, List.mem_map, List.mem_filter] at ha hb
    obtain ⟨x, ⟨hx, hpx⟩, rfl⟩ := ha
    obtain ⟨y, ⟨hy, hpy⟩, hfy⟩ := hb
    have hxy := hdisj y hy x hx hfy
    rw [hpx] at hxy
    simp [hxy] at hpy
  rw [hcard, hcard, hcard, hunion, Finset.card_union_of_disjoint hdis]

theorem distinct_fibers {K : Type} [DecidableEq K] (key : ProfitRec → K)
    (f : ProfitRec → Nat) :
    ∀ (keys : List K) (l : List ProfitRec), keys.Nodup →
      (∀ x ∈ l, key x ∈ keys) →
      (∀ x ∈ l, ∀ y ∈ l, f x = f y → key x = key y) →
      (keys.map (fun k =>
        distinctCount ((l.filter (fun x => key x = k)).map f))).sum =
        distinctCount (l.map f)
  | [], l, _, hcov, _ => by
    have : l = [] := List.eq_nil_iff_forall_not_mem.mpr
      (fun x hx => by simpa using hcov x hx)
    simp [this, distinctCount]
  | k :: ks, l, hnd, hcov, hfd => by
    have hknotin : k ∉ ks := (List.nodup_cons.mp hnd).1
    have hfib : ∀ k' ∈ ks,
        (l.filter (fun x => !(decide (key x = k)))).filter
          (fun x => key x = k') = l.filter (fun x => key x = k') := by
      intro k' hk'
      have hk'k : ¬ k' = k := fun h => hknotin (h ▸ hk')
      rw [List.filter_filter]
      apply List.filter_congr
      intro x _
      by_cases hxk' : key x = k'
      · simp [hxk', hk'k]
      · simp [hxk']
    have hrec := distinct_fibers key f ks
      (l.filter (fun x => !(decide (key x = k))))
      (List.nodup_cons.mp hnd).2
      (by
        intro x hx
        rcases List.mem_filter.mp hx with ⟨hxl, hxk⟩
        rcases List.mem_cons.mp (hcov x hxl) with h | h
        · exact absurd h (by simpa using hxk)
        · exact h)
      (by
        intro x hx y hy hxy
        exact hfd x (List.mem_of_mem_filter hx) y (List.mem_of_mem_filter hy) hxy)
    rw [List.map_cons, List.sum_cons]
    have hsplit := distinct_split (fun x => decide (key x = k)) f l
      (by
        intro x hx y hy hxy
        have := hfd x hx y hy hxy
        simp [this])
    rw [hsplit]
    congr 1
    rw [← hrec]
    refine congrArg List.sum (List.map_congr_left ?_)
    intro k' hk'
    rw [hfib k' hk']

theorem dayBetween_month_filter (y mo : Nat) (r : ProfitRec)
    (hd : r.sell_date.d ≤ 31) :
    dayBetween (y, mo, 0) (y, mo, 31) r.sell_date.dayKey =
      decide (r.sell_date.monthKey = (y, mo)) := by
  have hiff : dayBetween (y, mo, 0) (y, mo, 31) r.sell_date.dayKey = true ↔
      r.sell_date.monthKey = (y, mo) := by
    simp only [dayBetween, dayLe, DateTime.dayKey, DateTime.monthKey,
      Bool.and_eq_true, Bool.or_eq_true, beq_iff_eq, decide_eq_true_eq,
      Prod.mk.injEq]
    omega
  cases hb : dayBetween (y, mo, 0) (y, mo, 31) r.sell_date.dayKey
  · symm
    rw [decide_eq_false_iff_not]
    intro hc
    rw [hiff.mpr hc] at hb
    cases hb
  · symm
    rw [decide_eq_true_eq]
    exact hiff.mp hb

/-- C8 (amended): for every month row that `by_month` reports, its distinct
sell-order count, total sales, total fees+tax and total net profit all
equal the sums of the corresponding `by_day` columns over that month's
inclusive day range — provided profit rows of one sell order share one
calendar day (which the engine guarantees, since `sell_date` is copied from
the single source order) and the stored days are valid (≤ 31).  The
distinct buy-order count lacks this property (see the counterexample): a
day with buy orders but no profit rows contributes to the month's count but
produces no `by_day` row at all. -/
theorem get_profit_by_months_matches_day_sums (hist : List HistOrder)
    (ps : List ProfitRec) (y mo : Nat)
    (hFD : ∀ r ∈ ps, ∀ r' ∈ ps, r.sell_order_id = r'.sell_order_id →
      r.sell_date.dayKey = r'.sell_date.dayKey)
    (hD : ∀ r ∈ ps, r.sell_date.d ≤ 31) :
    ∀ row ∈ get_profit_by_months hist ps, row.key = (y, mo) →
      row.sell_orders =
        ((get_profit_by_days hist ps (y, mo, 0) (y, mo, 31)).map
          (fun d => d.sell_orders)).sum ∧
      row.total_sales =
        ((get_profit_by_days hist ps (y, mo, 0) (y, mo, 31)).map
          (fun d => d.total_sales)).sum ∧
      row.total_taxes =
        ((get_profit_by_days hist ps (y, mo, 0) (y, mo, 31)).map
          (fun d => d.total_taxes)).sum ∧
      row.total_profit =
        ((get_profit_by_days hist ps (y, mo, 0) (y, mo, 31)).map
          (fun d => d.total_profit)).sum := by
  intro row hrow hkey
  obtain ⟨k, hk, rfl⟩ := List.mem_map.mp hrow
  have hkeq : k = (y, mo) := hkey
  subst hkeq
  have hinR : ps.filter
      (fun r => dayBetween (y, mo, 0) (y, mo, 31) r.sell_date.dayKey) =
      ps.filter (fun r => r.sell_date.monthKey = (y, mo)) :=
    List.filter_congr (fun r hr => dayBetween_month_filter y mo r (hD r hr))
  have hnd : (((ps.filter (fun r =>
      dayBetween (y, mo, 0) (y, mo, 31) r.sell_date.dayKey)).map
      (fun r => r.sell_date.dayKey)).dedup).Nodup := List.nodup_dedup _
  have hcov : ∀ x ∈ ps.filter (fun r =>
      dayBetween (y, mo, 0) (y, mo, 31) r.sell_date.dayKey),
      x.sell_date.dayKey ∈ ((ps.filter (fun r =>
        dayBetween (y, mo, 0) (y, mo, 31) r.sell_date.dayKey)).map
        (fun r => r.sell_date.dayKey)).dedup := by
    intro x hx
    rw [List.mem_dedup]
    exact List.mem_map_of_mem _ hx
  have hperm : ∀ (g : (Nat × Nat × Nat) → ℚ),
      ((((ps.filter (fun r =>
        dayBetween (y, mo, 0) (y, mo, 31) r.sell_date.dayKey)).map
        (fun r => r.sell_date.dayKey)).dedup.insertionSort dayGe).map g).sum =
      ((((ps.filter (fun r =>
        dayBetween (y, mo, 0) (y, mo, 31) r.sell_date.dayKey)).map
        (fun r => r.sell_date.dayKey)).dedup).map g).sum :=
    fun g => ((List.perm_insertionSort dayGe _).map g).sum_eq
  have hpermN : ∀ (g : (Nat × Nat × Nat) → Nat),
      ((((ps.filter (fun r =>
        dayBetween (y, mo, 0) (y, mo, 31) r.sell_date.dayKey)).map
        (fun r => r.sell_date.dayKey)).dedup.insertionSort dayGe).map g).sum =
      ((((ps.filter (fun r =>
        dayBetween (y, mo, 0) (y, mo, 31) r.sell_date.dayKey)).map
        (fun r => r.sell_date.dayKey)).dedup).map g).sum :=
    fun g => ((List.perm_insertionSort dayGe _).map g).sum_eq
  have hqcol : ∀ (g : ProfitRec → ℚ),
      ((((ps.filter (fun r =>
        dayBetween (y, mo, 0) (y, mo, 31) r.sell_date.dayKey)).map
        (fun r => r.sell_date.dayKey)).dedup.insertionSort dayGe).map
        (fun k => (((ps.filter (fun r =>
          dayBetween (y, mo, 0) (y, mo, 31) r.sell_date.dayKey)).filter
          (fun r => r.sell_date.dayKey = k)).map g).sum)).sum =
      ((ps.filter (fun r => r.sell_date.monthKey = (y, mo))).map g).sum := by
    intro g
    rw [hperm, ← hinR]
    exact sum_fibers (fun r => r.sell_date.dayKey) g _ _ hnd hcov
  refine ⟨?_, ?_, ?_, ?_⟩
  · show distinctCount (((ps.filter
      (fun r => r.sell_date.monthKey = (y, mo))).map
      ProfitRec.sell_order_id)) = _
    rw [get_profit_by_days, List.map_map, ← hinR]
    have hfibers := distinct_fibers (fun r => r.sell_date.dayKey)
      ProfitRec.sell_order_id
      (((ps.filter (fun r =>
        dayBetween (y, mo, 0) (y, mo, 31) r.sell_date.dayKey)).map
        (fun r => r.sell_date.dayKey)).dedup)
      (ps.filter (fun r =>
        dayBetween (y, mo, 0) (y, mo, 31) r.sell_date.dayKey))
      hnd hcov
      (fun x hx x' hx' hxx => hFD x (List.mem_of_mem_filter hx) x'
        (List.mem_of_mem_filter hx') hxx)
    exact hfibers.symm.trans (hpermN _).symm
  · rw [get_profit_by_days, List.map_map]
    exact (hqcol (fun r => r.sell_price * (r.quantity : ℚ))).symm
  · rw [get_profit_by_days, List.map_map]
    exact (hqcol (fun r => r.broker_fee_sell + r.sales_tax)).symm
  · rw [get_profit_by_days, List.map_map]
    exact (hqcol ProfitRec.net_profit).symm

/-- Counterexample to C8 as stated: a buy order issued on a day with no
profit records is counted in the month's `buy_orders` (here 1) but in none
of the `by_day` rows (which exist only for days with profit records), so
the month's distinct buy-order count is not the sum of the day counts. -/
theorem get_profit_by_months_buy_cex :
    ∃ row, get_profit_by_months
        [⟨1, true, ⟨2024, 1, 2, 0⟩, 1, 1, 0, false⟩]
        [⟨1, 10, ⟨2024, 1, 1, 0⟩, 1, 1, 2, 0, 0, 0, 1, 1, some 5⟩] = [row] ∧
      row.key = (2024, 1) ∧ row.buy_orders = 1 ∧
      ((get_profit_by_days [⟨1, true, ⟨2024, 1, 2, 0⟩, 1, 1, 0, false⟩]
        [⟨1, 10, ⟨2024, 1, 1, 0⟩, 1, 1, 2, 0, 0, 0, 1, 1, some 5⟩]
        (2024, 1, 0) (2024, 1, 31)).map (fun d => d.buy_orders)).sum = 0 ∧
      (1 : Nat) ≠ 0 := by
  refine ⟨⟨(2024, 1), 1, 1, 2, 0, 1⟩, ?_, rfl, rfl, ?_, by norm_num⟩ <;>
    norm_num [get_profit_by_months, get_profit_by_days, mkMonthRow, mkDayRow,
      distinctCount, dayBetween, dayLe, DateTime.monthKey, DateTime.dayKey,
      monthGe, dayGe, List.insertionSort, List.orderedInsert, List.dedup,
      List.pwFilter, List.filter]

/-- Witness for C8 at a concrete ledger with one profit row. -/
theorem get_profit_by_months_matches_day_sums_witness :
    (∀ r ∈ [(⟨1, 10, ⟨2024, 1, 1, 0⟩, 1, 0, 2, 0, 0, 0, 0, 0, none⟩ : ProfitRec)],
      ∀ r' ∈ [(⟨1, 10, ⟨2024, 1, 1, 0⟩, 1, 0, 2, 0, 0, 0, 0, 0, none⟩ : ProfitRec)],
      r.sell_order_id = r'.sell_order_id →
        r.sell_date.dayKey = r'.sell_date.dayKey) ∧
    (∀ r ∈ [(⟨1, 10, ⟨2024, 1, 1, 0⟩, 1, 0, 2, 0, 0, 0, 0, 0, none⟩ : ProfitRec)],
      r.sell_date.d ≤ 31) ∧
    (⟨(2024, 1), 0, 1, 2, 0, 0⟩ : ReportRow (Nat × Nat)) ∈
      get_profit_by_months []
        [(⟨1, 10, ⟨2024, 1, 1, 0⟩, 1, 0, 2, 0, 0, 0, 0, 0, none⟩ : ProfitRec)] ∧
    (⟨(2024, 1), 0, 1, 2, 0, 0⟩ : ReportRow (Nat × Nat)).key = (2024, 1) ∧
    ((⟨(2024, 1), 0, 1, 2, 0, 0⟩ : ReportRow (Nat × Nat)).sell_orders =
      ((get_profit_by_days []
        [(⟨1, 10, ⟨2024, 1, 1, 0⟩, 1, 0, 2, 0, 0, 0, 0, 0, none⟩ : ProfitRec)]
        (2024, 1, 0) (2024, 1, 31)).map (fun d => d.sell_orders)).sum ∧
    (⟨(2024, 1), 0, 1, 2, 0, 0⟩ : ReportRow (Nat × Nat)).total_sales =
      ((get_profit_by_days []
        [(⟨1, 10, ⟨2024, 1, 1, 0⟩, 1, 0, 2, 0, 0, 0, 0, 0, none⟩ : ProfitRec)]
        (2024, 1, 0) (2024, 1, 31)).map (fun d => d.total_sales)).sum ∧
    (⟨(2024, 1), 0, 1, 2, 0, 0⟩ : ReportRow (Nat × Nat)).total_taxes =
      ((get_profit_by_days []
        [(⟨1, 10, ⟨2024, 1, 1, 0⟩, 1, 0, 2, 0, 0, 0, 0, 0, none⟩ : ProfitRec)]
        (2024, 1, 0) (2024, 1, 31)).map (fun d => d.total_taxes)).sum ∧
    (⟨(2024, 1), 0, 1, 2, 0, 0⟩ : ReportRow (Nat × Nat)).total_profit =
      ((get_profit_by_days []
        [(⟨1, 10, ⟨2024, 1, 1, 0⟩, 1, 0, 2, 0, 0, 0, 0, 0, none⟩ : ProfitRec)]
        (2024, 1, 0) (2024, 1, 31)).map (fun d => d.total_profit)).sum) := by
  have hfd : ∀ r ∈ [(⟨1, 10, ⟨2024, 1, 1, 0⟩, 1, 0, 2, 0, 0, 0, 0, 0, none⟩ : ProfitRec)],
      ∀ r' ∈ [(⟨1, 10, ⟨2024, 1, 1, 0⟩, 1, 0, 2, 0, 0, 0, 0, 0, none⟩ : ProfitRec)],
      r.sell_order_id = r'.sell_order_id →
        r.sell_date.dayKey = r'.sell_date.dayKey := by
    intro r hr r' hr' _
    simp only [List.mem_singleton] at hr hr'
    rw [hr, hr']
  have hd : ∀ r ∈ [(⟨1, 10, ⟨2024, 1, 1, 0⟩, 1, 0, 2, 0, 0, 0, 0, 0, none⟩ : ProfitRec)],
      r.sell_date.d ≤ 31 := by
    intro r hr
    simp only [List.mem_singleton] at hr
    rw [hr]
    norm_num
  have hmem : (⟨(2024, 1), 0, 1, 2, 0, 0⟩ : ReportRow (Nat × Nat)) ∈
      get_profit_by_months []
        [(⟨1, 10, ⟨2024, 1, 1, 0⟩, 1, 0, 2, 0, 0, 0, 0, 0, none⟩ : ProfitRec)] := by
    norm_num [get_profit_by_months, mkMonthRow, distinctCount,
      DateTime.monthKey, monthGe, List.insertionSort, List.orderedInsert,
      List.dedup, List.pwFilter, List.filter]
  exact ⟨hfd, hd, hmem, rfl,
    get_profit_by_months_matches_day_sums []
      [(⟨1, 10, ⟨2024, 1, 1, 0⟩, 1, 0, 2, 0, 0, 0, 0, 0, none⟩ : ProfitRec)]
      2024 1 hfd hd _ hmem rfl⟩

/-- Witness for C2 at a concrete run with two-decimal ledger prices. -/
theorem process_character_orders_profit_identity_witness :
    (∀ o ∈ (⟨[⟨1, true, ⟨2024, 1, 1, 0⟩, 10, 3, 10, false⟩,
        ⟨2, false, ⟨2024, 1, 1, 1⟩, 12, 3, 4, false⟩], [], [], 1⟩ : DBState).history,
      Is2dp o.price) ∧
    (∀ l ∈ (⟨[⟨1, true, ⟨2024, 1, 1, 0⟩, 10, 3, 10, false⟩,
        ⟨2, false, ⟨2024, 1, 1, 1⟩, 12, 3, 4, false⟩], [], [], 1⟩ : DBState).inventory,
      Is2dp l.purchase_price) ∧
    ∀ r ∈ (process_character_orders 1 1 1
        ⟨[⟨1, true, ⟨2024, 1, 1, 0⟩, 10, 3, 10, false⟩,
          ⟨2, false, ⟨2024, 1, 1, 1⟩, 12, 3, 4, false⟩], [], [], 1⟩).1.profits,
      r ∉ (⟨[⟨1, true, ⟨2024, 1, 1, 0⟩, 10, 3, 10, false⟩,
          ⟨2, false, ⟨2024, 1, 1, 1⟩, 12, 3, 4, false⟩], [], [], 1⟩ : DBState).profits →
      (r.purchase_order_id.isSome = true →
        r.gross_profit = (r.quantity : ℚ) * r.sell_price -
          (r.quantity : ℚ) * r.purchase_price ∧
        ∃ buyShare sellFee tax : ℚ,
          r.broker_fee_buy = round2 buyShare ∧
          r.broker_fee_sell = round2 sellFee ∧
          r.sales_tax = round2 tax ∧
          r.net_profit = round2 (r.gross_profit - buyShare - sellFee - tax)) ∧
      (r.purchase_order_id = none →
        r.purchase_price = 0 ∧ r.gross_profit = 0 ∧ r.net_profit = 0) := by
  have hh : ∀ o ∈ (⟨[⟨1, true, ⟨2024, 1, 1, 0⟩, 10, 3, 10, false⟩,
      ⟨2, false, ⟨2024, 1, 1, 1⟩, 12, 3, 4, false⟩], [], [], 1⟩ : DBState).history,
      Is2dp o.price := by
    intro o ho
    simp only [List.mem_cons, List.not_mem_nil, or_false] at ho
    rcases ho with rfl | rfl
    · exact ⟨1000, by norm_num⟩
    · exact ⟨1200, by norm_num⟩
  have hi : ∀ l ∈ (⟨[⟨1, true, ⟨2024, 1, 1, 0⟩, 10, 3, 10, false⟩,
      ⟨2, false, ⟨2024, 1, 1, 1⟩, 12, 3, 4, false⟩], [], [], 1⟩ : DBState).inventory,
      Is2dp l.purchase_price := fun l hl => absurd hl (List.not_mem_nil l)
  exact ⟨hh, hi, process_character_orders_profit_identity 1 1 1 _ hh hi⟩
